import Mathlib

/-!
Verification of the pdf_extractor question/answer extraction and matching
engine against its specification.

The Python sources are shallowly embedded: pure functions become Lean
functions over `String` / `List Char` / `Nat`, the regular expressions used
by the code are translated into explicit deterministic matchers (each one is
derived from the concrete pattern in the source, whose backtracking is
resolvable by hand), Python dicts become association lists, Python sets
become duplicate-free lists built by the same insertions the code performs,
and the only effectful operation reachable from the claims (`uuid.uuid4()`
for record ids) becomes an explicit supply `g : Nat -> String` threaded
through the matching loop.  `uuid.uuid5` is implemented concretely (SHA-1
over the namespace bytes plus the UTF-8 encoded name, with the RFC 4122
version/variant bits), so the derived pair ids are computable values.
-/

/- ===================== Python string primitives ===================== -/

/-- Python `str.strip()` / `\s` whitespace test (the ASCII whitespace set
`' '  '\t'  '\n'  '\r'  '\x0b'  '\x0c'`). -/
def isPySpace (c : Char) : Bool :=
  c = ' ' || c = '\t' || c = '\n' || c = '\r' || c = '\x0b' || c = '\x0c'

/-- Python `str.strip()` on a character list: drop whitespace from both ends. -/
def pyStripList (cs : List Char) : List Char :=
  ((cs.dropWhile isPySpace).reverse.dropWhile isPySpace).reverse

/-- Python `str.strip()`. -/
def pyStrip (s : String) : String :=
  String.mk (pyStripList s.data)

/-- Value of a decimal digit character. -/
def digitVal (c : Char) : Nat :=
  c.toNat - 48

/-- Python `int()` on a string of decimal digits (the only inputs the code
ever passes to `int`, coming from `\d+` capture groups). -/
def parseDigits (cs : List Char) : Nat :=
  cs.foldl (fun n c => n * 10 + digitVal c) 0

/-- One step of Python `str.title()`: a cased character is uppercased when the
previous character was not cased, lowercased otherwise (ASCII letters are the
only cased characters appearing in the embedded inputs). -/
def pyTitleGo : Bool → List Char → List Char
  | _, [] => []
  | prevCased, c :: cs =>
    if c.isAlpha then
      (if prevCased then c.toLower else c.toUpper) :: pyTitleGo true cs
    else
      c :: pyTitleGo false cs

/-- Python `str.title()`. -/
def pyTitle (s : String) : String :=
  String.mk (pyTitleGo false s.data)

/-- Python truthiness of an optional string (`None` and `""` are falsy). -/
def pyTruthyStr : Option String → Bool
  | none => false
  | some s => s ≠ ""

/-- Substring containment, Python's `sub in s` for strings: some split of
`s` has `sub` directly after its first part. -/
def containsSub (sub : List Char) (s : List Char) : Bool :=
  (List.range (s.length + 1)).any (fun i => (s.drop i).take sub.length = sub)

/- ===================== SHA-1 and uuid5 (src/qa_handler.py lines 26-28) ===================== -/

/-- 32-bit mask used by the SHA-1 arithmetic. -/
def mask32 : Nat := 2 ^ 32

/-- Left rotation of a 32-bit word by `n` bits. -/
def rotl32 (n x : Nat) : Nat :=
  ((x <<< n) % mask32) ||| (x >>> (32 - n))

/-- Bitwise complement of a 32-bit word. -/
def not32 (x : Nat) : Nat :=
  Nat.xor x (mask32 - 1)

/-- SHA-1 round constant for round `i`. -/
def sha1K (i : Nat) : Nat :=
  if i < 20 then 0x5A827999
  else if i < 40 then 0x6ED9EBA1
  else if i < 60 then 0x8F1BBCDC
  else 0xCA62C1D6

/-- SHA-1 round function for round `i`. -/
def sha1F (i b c d : Nat) : Nat :=
  if i < 20 then Nat.lor (Nat.land b c) (Nat.land (not32 b) d)
  else if i < 40 then Nat.xor b (Nat.xor c d)
  else if i < 60 then Nat.lor (Nat.lor (Nat.land b c) (Nat.land b d)) (Nat.land c d)
  else Nat.xor b (Nat.xor c d)

/-- Big-endian bytes of `n`, `len` bytes wide. -/
def natToBytesBE (n len : Nat) : List Nat :=
  (List.range len).map (fun i => (n >>> (8 * (len - 1 - i))) % 256)

/-- Group a byte list into big-endian 32-bit words. -/
def bytesToWords : List Nat → List Nat
  | b0 :: b1 :: b2 :: b3 :: rest =>
    (b0 * 2 ^ 24 + b1 * 2 ^ 16 + b2 * 2 ^ 8 + b3) :: bytesToWords rest
  | _ => []

/-- Extend the 16 message words to 80 (`k` is the number of words still to
append): each new word is the 1-bit rotation of the xor of four earlier ones. -/
def sha1Extend : Nat → List Nat → List Nat
  | 0, w => w
  | k + 1, w =>
    let n := w.length
    let x := rotl32 1 (Nat.xor (w.getD (n - 3) 0)
      (Nat.xor (w.getD (n - 8) 0) (Nat.xor (w.getD (n - 14) 0) (w.getD (n - 16) 0))))
    sha1Extend k (w ++ [x])

/-- One SHA-1 round applied to the five-word state. -/
def sha1Round (w : List Nat) (st : Nat × Nat × Nat × Nat × Nat) (i : Nat) :
    Nat × Nat × Nat × Nat × Nat :=
  let a := st.1
  let b := st.2.1
  let c := st.2.2.1
  let d := st.2.2.2.1
  let e := st.2.2.2.2
  let temp := (rotl32 5 a + sha1F i b c d + e + sha1K i + w.getD i 0) % mask32
  (temp, a, rotl32 30 b, c, d)

/-- Process one padded 64-byte block, updating the running hash state. -/
def sha1Block (h : Nat × Nat × Nat × Nat × Nat) (block : List Nat) :
    Nat × Nat × Nat × Nat × Nat :=
  let w := sha1Extend 64 (bytesToWords block)
  let st := (List.range 80).foldl (sha1Round w) h
  ((h.1 + st.1) % mask32, (h.2.1 + st.2.1) % mask32,
   (h.2.2.1 + st.2.2.1) % mask32, (h.2.2.2.1 + st.2.2.2.1) % mask32,
   (h.2.2.2.2 + st.2.2.2.2) % mask32)

/-- SHA-1 message padding: `0x80`, zeros to 56 mod 64, then the bit length. -/
def sha1Pad (msg : List Nat) : List Nat :=
  let l := msg.length
  let zeros := (64 + 56 - ((l + 1) % 64)) % 64
  msg ++ [0x80] ++ List.replicate zeros 0 ++ natToBytesBE (8 * l) 8

/-- Split a list into chunks of 64 elements. -/
def chunks64 : List Nat → List (List Nat)
  | [] => []
  | c :: cs => ((c :: cs).take 64) :: chunks64 ((c :: cs).drop 64)
termination_by l => l.length
decreasing_by simp [List.length_drop]; omega

/-- SHA-1 digest of a byte list, as 20 bytes. -/
def sha1 (msg : List Nat) : List Nat :=
  let h := (chunks64 (sha1Pad msg)).foldl sha1Block
    (0x67452301, 0xEFCDAB89, 0x98BADCFE, 0x10325476, 0xC3D2E1F0)
  natToBytesBE h.1 4 ++ natToBytesBE h.2.1 4 ++ natToBytesBE h.2.2.1 4 ++
    natToBytesBE h.2.2.2.1 4 ++ natToBytesBE h.2.2.2.2 4

/-- UTF-8 encoding of one character. -/
def utf8Char (c : Char) : List Nat :=
  let n := c.toNat
  if n < 0x80 then [n]
  else if n < 0x800 then [0xC0 + n / 64, 0x80 + n % 64]
  else if n < 0x10000 then [0xE0 + n / 4096, 0x80 + (n / 64) % 64, 0x80 + n % 64]
  else [0xF0 + n / 262144, 0x80 + (n / 4096) % 64, 0x80 + (n / 64) % 64, 0x80 + n % 64]

/-- UTF-8 encoding of a string (`str.encode("utf-8")`). -/
def utf8Bytes (s : String) : List Nat :=
  s.data.foldr (fun c acc => utf8Char c ++ acc) []

/-- Lowercase hexadecimal digit. -/
def hexDigit (n : Nat) : Char :=
  if n < 10 then Char.ofNat (48 + n) else Char.ofNat (87 + n)

/-- Two lowercase hex digits of a byte. -/
def byteHex (b : Nat) : List Char :=
  [hexDigit (b / 16), hexDigit (b % 16)]

/-- Hyphenated 8-4-4-4-12 rendering of 16 bytes (`str(uuid.UUID(...))`). -/
def uuidFormat (bs : List Nat) : String :=
  let h := bs.foldr (fun b acc => byteHex b ++ acc) []
  String.mk (h.take 8 ++ '-' :: (h.drop 8).take 4 ++ '-' :: (h.drop 12).take 4 ++
    '-' :: (h.drop 16).take 4 ++ '-' :: h.drop 20)

/-- Bytes of `uuid.NAMESPACE_URL` (6ba7b811-9dad-11d1-80b4-00c04fd430c8). -/
def NAMESPACE_URL_BYTES : List Nat :=
  [0x6b, 0xa7, 0xb8, 0x11, 0x9d, 0xad, 0x11, 0xd1,
   0x80, 0xb4, 0x00, 0xc0, 0x4f, 0xd4, 0x30, 0xc8]

/-- Python `uuid.uuid5(namespace, name)`: SHA-1 of the namespace bytes plus
the UTF-8 name, truncated to 16 bytes, version and variant bits set. -/
def uuid5 (nsBytes : List Nat) (name : String) : String :=
  let d := (sha1 (nsBytes ++ utf8Bytes name)).take 16
  let b6 := Nat.lor (Nat.land (d.getD 6 0) 0x0F) 0x50
  let b8 := Nat.lor (Nat.land (d.getD 8 0) 0x3F) 0x80
  uuidFormat (d.take 6 ++ [b6, d.getD 7 0, b8] ++ d.drop 9)

/- ===================== qa_handler.py: keys ===================== -/

/-- Source `chapter_key` helper: leftmost case-insensitive match of the
pattern `(Chapter\s+\d+)` starting at the head of `cs`, returning the matched
characters (the literal `Chapter` spelling, the whitespace run, the maximal
digit run). -/
def chapterKeyAt (cs : List Char) : Option (List Char) :=
  if (cs.take 7).map Char.toLower = "chapter".data then
    let rest := cs.drop 7
    let ws := rest.takeWhile isPySpace
    let rest2 := rest.dropWhile isPySpace
    let ds := rest2.takeWhile Char.isDigit
    if ws.isEmpty || ds.isEmpty then none
    else some (cs.take 7 ++ ws ++ ds)
  else none

/-- Source `chapter_key` helper: `re.search` scans left to right for the
first position where `(Chapter\s+\d+)` matches. -/
def searchChapter : List Char → Option (List Char)
  | [] => none
  | c :: cs =>
    match chapterKeyAt (c :: cs) with
    | some m => some m
    | none => searchChapter cs

/-- `chapter_key` (src/qa_handler.py line 18): title-cased `Chapter N`
substring of the section title, `"Chapter ?"` when absent.  The argument is
optional because the caller's dict value may be `None` (`title or ""`). -/
def chapter_key (title : Option String) : String :=
  match searchChapter (title.getD "").data with
  | some m => pyTitle (String.mk m)
  | none => "Chapter ?"

/-- `canonical_problem_key` (src/qa_handler.py line 22). -/
def canonical_problem_key (book_id : String) (chapter : String) (number : Nat) : String :=
  book_id ++ "|" ++ chapter ++ "|" ++ toString number

/-- `qa_id_from_problem_key` (src/qa_handler.py line 26):
`uuid.uuid5(uuid.NAMESPACE_URL, problem_key)`. -/
def qa_id_from_problem_key (problem_key : String) : String :=
  uuid5 NAMESPACE_URL_BYTES problem_key

/- ===================== qa_handler.py: blocks and records ===================== -/

/-- Question dict built by `extract_questions` (keys `qnum`, `raw`,
`page_ids`, `pdf_pages`, `section_title`, `section_label`). -/
structure QBlock where
  qnum : Nat
  raw : String
  page_ids : List String
  pdf_pages : List Nat
  section_title : Option String
  section_label : Option String
deriving DecidableEq, Repr

/-- Answer dict built by `extract_answers` (keys `anum`, `choice`, `raw`,
`answer_text`, `page_ids`, `pdf_pages`, `section_title`, `section_label`). -/
structure ABlock where
  anum : Nat
  choice : String
  raw : String
  answer_text : String
  page_ids : List String
  pdf_pages : List Nat
  section_title : Option String
  section_label : Option String
deriving DecidableEq, Repr

/-- `QuestionRecord` fields populated by `match_questions_and_answers`
(dataclass fields never assigned there keep their `None`/empty defaults). -/
structure QuestionRecord where
  id : String
  qa_id : String
  book_id : String
  chapter : Option String := none
  section_labels : List (Option String) := []
  section_titles : List (Option String) := []
  pdf_page : Option Nat := none
  problem_key : String
  question_number : Nat
  question_text : String
  page_ids : List String
deriving DecidableEq, Repr

/-- `AnswerRecord` fields populated by `match_questions_and_answers`. -/
structure AnswerRecord where
  id : String
  qa_id : String
  book_id : String
  chapter : Option String := none
  section_labels : List (Option String) := []
  section_titles : List (Option String) := []
  pdf_page : Option Nat := none
  problem_key : String
  answer_number : Nat
  answer_choice : String
  answer_text : String
  page_ids : List String
deriving DecidableEq, Repr

/-- Canonical key of an answer block as computed at src/qa_handler.py
lines 242-243. -/
def akey (book_id : String) (a : ABlock) : String :=
  canonical_problem_key book_id (chapter_key a.section_title) a.anum

/-- Canonical key of a question block as computed at src/qa_handler.py
lines 250-251. -/
def qkey (book_id : String) (q : QBlock) : String :=
  canonical_problem_key book_id (chapter_key q.section_title) q.qnum

/-- Python dict assignment `m[k] = v`: replace in place when the key exists,
append otherwise. -/
def dictInsert (m : List (String × ABlock)) (k : String) (v : ABlock) :
    List (String × ABlock) :=
  if m.any (fun p => p.1 = k) then
    m.map (fun p => if p.1 = k then (k, v) else p)
  else m ++ [(k, v)]

/-- Python `dict.get`. -/
def dictGet (m : List (String × ABlock)) (k : String) : Option ABlock :=
  (m.find? (fun p => p.1 = k)).map (fun p => p.2)

/-- The `a_map` of `match_questions_and_answers` (lines 240-244): insert every
answer block under its canonical key, later blocks overwriting earlier ones. -/
def buildAMap (a_blocks : List ABlock) (book_id : String) : List (String × ABlock) :=
  a_blocks.foldl (fun m a => dictInsert m (akey book_id a) a) []

/-- The `QuestionRecord` built for one question block (lines 255-265); `qid`
is the fresh `uuid4` value consumed for the record id. -/
def mkQuestionRecord (book_id : String) (qid : String) (q : QBlock) : QuestionRecord :=
  { id := qid
    qa_id := qa_id_from_problem_key (qkey book_id q)
    book_id := book_id
    problem_key := qkey book_id q
    question_number := q.qnum
    question_text := q.raw
    page_ids := q.page_ids
    section_titles := [q.section_title]
    section_labels := if pyTruthyStr q.section_label then [q.section_label] else [] }

/-- The `AnswerRecord` built for a matched pair (lines 271-282): note that
both section fields are taken from the question block `q`, while the guard on
`section_labels` tests the answer block `a`. -/
def mkAnswerRecord (book_id : String) (aid : String) (q : QBlock) (a : ABlock) : AnswerRecord :=
  { id := aid
    qa_id := qa_id_from_problem_key (qkey book_id q)
    book_id := book_id
    problem_key := qkey book_id q
    answer_number := a.anum
    answer_choice := a.choice
    answer_text := a.raw
    page_ids := a.page_ids
    section_titles := [q.section_title]
    section_labels := if pyTruthyStr a.section_label then [q.section_label] else [] }

/-- The question loop of `match_questions_and_answers` (lines 249-283).  The
Python loop appends to `questions_out` / `answers_out`; here the same lists
are produced by recursion.  `g` is the `uuid.uuid4()` supply and `ctr` counts
the `uuid4` calls made so far. -/
def matchGo (book_id : String) (amap : List (String × ABlock)) (g : Nat → String) :
    List QBlock → Nat → List QuestionRecord × List AnswerRecord
  | [], _ => ([], [])
  | q :: rest, ctr =>
    let qrec := mkQuestionRecord book_id (g ctr) q
    match dictGet amap (qkey book_id q) with
    | some a =>
      let arec := mkAnswerRecord book_id (g (ctr + 1)) q a
      let out := matchGo book_id amap g rest (ctr + 2)
      (qrec :: out.1, arec :: out.2)
    | none =>
      let out := matchGo book_id amap g rest (ctr + 1)
      (qrec :: out.1, out.2)

/-- `match_questions_and_answers` (src/qa_handler.py lines 238-294) without
its diagnostic prints; `g` supplies the `uuid.uuid4()` results. -/
def match_questions_and_answers (q_blocks : List QBlock) (a_blocks : List ABlock)
    (book_id : String) (g : Nat → String) :
    List QuestionRecord × List AnswerRecord :=
  matchGo book_id (buildAMap a_blocks book_id) g q_blocks 0

/-- Size of a Python set comprehension over a list of keys: the number of
distinct values. -/
def distinctCount (l : List String) : Nat :=
  l.dedup.length

/-- Size of the intersection of two Python sets given as key lists. -/
def interCount (l r : List String) : Nat :=
  (l.dedup.filter (fun k => k ∈ r)).length

/-- Size of the one-sided difference of two Python sets given as key lists. -/
def diffCount (l r : List String) : Nat :=
  (l.dedup.filter (fun k => k ∉ r)).length

/-- The five numbers printed by `match_questions_and_answers` (lines 285-292):
`q_keys` and `a_keys` are the key sets of the two OUTPUT lists, and the report
is (questions, answers, matched, unmatched questions, unmatched answers). -/
def matchReport (q_blocks : List QBlock) (a_blocks : List ABlock)
    (book_id : String) (g : Nat → String) : Nat × Nat × Nat × Nat × Nat :=
  let out := match_questions_and_answers q_blocks a_blocks book_id g
  let qKeys := out.1.map (fun r => r.problem_key)
  let aKeys := out.2.map (fun r => r.problem_key)
  (distinctCount qKeys, distinctCount aKeys, interCount qKeys aKeys,
   diffCount qKeys aKeys, diffCount aKeys qKeys)

/- ===================== chapter_detector.py: registry and point lookup ===================== -/

/-- `ChapterBoundary` of src/chapter_detector.py (lines 6-10). -/
structure CDBoundary where
  chapter_number : Nat
  page_number : Nat
  chapter_title : Option String := none
deriving DecidableEq, Repr

/-- `ChapterRegistry` of src/chapter_detector.py (lines 17-19). -/
structure ChapterRegistry where
  boundaries : List CDBoundary
deriving DecidableEq, Repr

/-- `ChapterRegistry.finalize` (line 29): sort the boundaries by page number
(Python `list.sort` is a stable sort). -/
def ChapterRegistry.finalize (r : ChapterRegistry) : ChapterRegistry :=
  ⟨r.boundaries.mergeSort (fun a b => a.page_number ≤ b.page_number)⟩

/-- The loop of Python `bisect.bisect_right(a, x)`:
`while lo < hi: mid = (lo+hi)//2; if x < a[mid]: hi = mid else: lo = mid+1`. -/
def bisectRightGo (a : List Nat) (x lo hi : Nat) : Nat :=
  if h : lo < hi then
    let mid := (lo + hi) / 2
    if x < a.getD mid 0 then bisectRightGo a x lo mid
    else bisectRightGo a x (mid + 1) hi
  else lo
termination_by hi - lo
decreasing_by all_goals omega

/-- Python `bisect.bisect_right(a, x)`. -/
def bisect_right (a : List Nat) (x : Nat) : Nat :=
  bisectRightGo a x 0 a.length

/-- Python `f"ch{n:02d}"` for a natural chapter number. -/
def chapterIdString (n : Nat) : String :=
  if n < 10 then "ch0" ++ toString n else "ch" ++ toString n

/-- `ChapterRegistry.get_chapter_id` (lines 32-43): bisect on the boundary
page numbers; `'ch00'` when the registry is empty or the insertion point is 0
(the Python index `idx = bisect_right(...) - 1` is negative exactly when
`bisect_right` returns 0). -/
def ChapterRegistry.get_chapter_id (r : ChapterRegistry) (page_num : Nat) : String :=
  if r.boundaries.isEmpty then "ch00"
  else
    let idx := bisect_right (r.boundaries.map (fun b => b.page_number)) page_num
    if idx = 0 then "ch00"
    else chapterIdString ((r.boundaries.getD (idx - 1) ⟨0, 0, none⟩).chapter_number)

/-- `ChapterRegistry.get_chapter_info` (lines 45-55). -/
def ChapterRegistry.get_chapter_info (r : ChapterRegistry) (page_num : Nat) :
    Option CDBoundary :=
  if r.boundaries.isEmpty then none
  else
    let idx := bisect_right (r.boundaries.map (fun b => b.page_number)) page_num
    if idx = 0 then none
    else some (r.boundaries.getD (idx - 1) ⟨0, 0, none⟩)

/- ===================== qa_handler.py: section lookup table ===================== -/

/-- The per-page dict stored in the lookup table built by `lookup_section`
(keys `section_label` and `section_title`). -/
structure SecInfo where
  section_label : Option String
  section_title : Option String
deriving DecidableEq, Repr

/-- The fields of a section record that `lookup_section` actually reads
(`page_start`, `page_end`, `section_label`, `section_title`). -/
structure SecRec where
  page_start : Nat
  page_end : Nat
  section_label : Option String
  section_title : Option String
deriving DecidableEq, Repr

/-- Projection of a section record to the dict stored in the lookup table
(src/qa_handler.py lines 109-112). -/
def SecRec.info (s : SecRec) : SecInfo :=
  ⟨s.section_label, s.section_title⟩

/-- Sort key used at src/qa_handler.py line 102:
`(s.page_end - s.page_start, s.page_start)` with Python integer subtraction. -/
def secSortKey (s : SecRec) : Int × Nat :=
  ((s.page_end : Int) - (s.page_start : Int), s.page_start)

/-- Python tuple comparison (lexicographic) on the sort keys. -/
def secSortLe (a b : SecRec) : Bool :=
  decide ((secSortKey a).1 < (secSortKey b).1 ∨
    ((secSortKey a).1 = (secSortKey b).1 ∧ (secSortKey a).2 ≤ (secSortKey b).2))

/-- One write of the inner loop (lines 107-112): store the section's dict at
index `p` when the slot is in range and still `None`. -/
def writePage (info : SecInfo) (lookup : List (Option SecInfo)) (p : Nat) :
    List (Option SecInfo) :=
  if p < lookup.length ∧ lookup.getD p none = none then lookup.set p (some info)
  else lookup

/-- The page loop for one section (`for p in range(s.page_start, s.page_end + 1)`).
The Python guard `p <= max_page` equals `p < len(lookup)` and is folded into
`writePage`. -/
def assignSection (lookup : List (Option SecInfo)) (s : SecRec) : List (Option SecInfo) :=
  (List.range' s.page_start (s.page_end + 1 - s.page_start)).foldl
    (writePage s.info) lookup

/-- Greatest `page_end` of the input records (`max(s.page_end for s in sections)`,
which Python only evaluates for a non-empty list). -/
def maxPageEnd (recs : List SecRec) : Nat :=
  recs.foldl (fun m s => max m s.page_end) 0

/-- `lookup_section` (src/qa_handler.py lines 98-114): sort by (span, start),
then first-write-wins over a `None`-initialised table of size `max_page + 1`. -/
def lookup_section (recs : List SecRec) : List (Option SecInfo) :=
  (recs.mergeSort secSortLe).foldl assignSection
    (List.replicate (maxPageEnd recs + 1) none)

/- ===================== qa_handler.py: question extraction ===================== -/

/-- The fields of a `PageRecord` read by `extract_questions` /
`extract_answers`. -/
structure PageRec where
  id : String
  pdf_page_number : Nat
  text : String
deriving DecidableEq, Repr

/-- `lookup[page.pdf_page_number] if page.pdf_page_number < len(lookup) else None`
(src/qa_handler.py line 129). -/
def secInfoAt (lookup : List (Option SecInfo)) (n : Nat) : Option SecInfo :=
  if n < lookup.length then lookup.getD n none else none

/-- Matcher for `\s*\d+\.\s` anchored at the head of `cs` (the question-item
boundary of `QUESTION_BLOCK_SPLIT` and the continuation check at line 145):
maximal whitespace, at least one digit, a dot, one whitespace character.  No
backtracking is possible: a whitespace character is never a digit and a digit
is never a dot. -/
def qBoundaryAt (cs : List Char) : Bool :=
  let r1 := cs.dropWhile isPySpace
  let ds := r1.takeWhile Char.isDigit
  match r1.dropWhile Char.isDigit with
  | '.' :: c :: _ => !ds.isEmpty && isPySpace c
  | _ => false

/-- Multiline splitter for `re.split(r"(?=^\s*\d+\.\s)", text, re.MULTILINE)`:
a zero-width split point sits at every line start (directly after a `'\n'`)
whose suffix matches the boundary pattern.  The accumulator holds the current
fragment reversed; the possible empty first fragment is immaterial because the
caller discards empty fragments after stripping. -/
def splitQGo (bound : List Char → Bool) : List Char → List Char → List (List Char)
  | acc, [] => [acc.reverse]
  | acc, c :: rest =>
    if c = '\n' && bound rest then acc.reverse.concat '\n' :: splitQGo bound [] rest
    else splitQGo bound (c :: acc) rest

/-- `QUESTION_BLOCK_SPLIT.split text` followed by
`[p.strip() for p in parts if p.strip()]` (lines 141-142). -/
def cleanParts (bound : List Char → Bool) (text : String) : List (List Char) :=
  ((splitQGo bound [] text.data).map pyStripList).filter (fun l => !l.isEmpty)

/-- `QUESTION_START.match part` for `^\s*(\d+)\.\s*(.*)` with DOTALL: the code
only consumes group 1, the item number. -/
def qStartMatch (cs : List Char) : Option Nat :=
  let r1 := cs.dropWhile isPySpace
  let ds := r1.takeWhile Char.isDigit
  match r1.dropWhile Char.isDigit with
  | '.' :: _ => if ds.isEmpty then none else some (parseDigits ds)
  | _ => none

/-- `section_title` of the lookup entry for page `n`; the chunk filter
guarantees the entry exists, so the `none` branch is unreachable in the uses
below. -/
def sectionTitleAt (lookup : List (Option SecInfo)) (n : Nat) : Option String :=
  match secInfoAt lookup n with
  | some s => s.section_title
  | none => none

/-- `section_label` of the lookup entry for page `n` (same remark). -/
def sectionLabelAt (lookup : List (Option SecInfo)) (n : Nat) : Option String :=
  match secInfoAt lookup n with
  | some s => s.section_label
  | none => none

/-- `set.add` on the insertion-ordered model of a Python set. -/
def addPageId (ids : List String) (pid : String) : List String :=
  if pid ∈ ids then ids else ids ++ [pid]

/-- Map `f` over the last element of a list, if any. -/
def modifyLast (f : α → α) : List α → List α
  | [] => []
  | [a] => [f a]
  | a :: b :: rest => a :: modifyLast f (b :: rest)

/-- The continuation branch (lines 145-149): append the fragment to the open
item's raw text and add the page id.  In the source the mutation happens
through the `carry` alias of the most recently appended question dict, so it
updates the last element of the output list. -/
def carryAppend (frag : List Char) (pid : String) (qs : List QBlock) : List QBlock :=
  modifyLast (fun q =>
    { q with raw := q.raw ++ "\n" ++ String.mk frag,
             page_ids := addPageId q.page_ids pid }) qs

/-- The chunk gathering step of `extract_questions` (lines 127-134): keep the
pages whose lookup entry exists and whose section title contains
`"Practice Exercises"`. -/
def practiceChunks (pages : List PageRec) (lookup : List (Option SecInfo)) :
    List PageRec :=
  pages.filter (fun p =>
    match secInfoAt lookup p.pdf_page_number with
    | none => false
    | some s => containsSub "Practice Exercises".data (s.section_title.getD "").data)

/-- The body of the `for part in parts` loop (lines 151-166): a fragment that
matches `QUESTION_START` opens a new item (which also becomes the `carry`),
any other fragment is skipped. -/
def questionItemStep (lookup : List (Option SecInfo)) (p : PageRec)
    (acc : List QBlock) (part : List Char) : List QBlock :=
  match qStartMatch part with
  | some qnum =>
    acc ++ [{ qnum := qnum
              raw := String.mk part
              page_ids := [p.id]
              pdf_pages := [p.pdf_page_number]
              section_title := sectionTitleAt lookup p.pdf_page_number
              section_label := sectionLabelAt lookup p.pdf_page_number }]
  | none => acc

/-- The per-page body of `extract_questions` (lines 140-166).  `carry` is
non-`None` exactly when `questions` is non-empty (it always aliases the last
appended item), so the continuation branch tests the output list. -/
def extractQuestionsPage (lookup : List (Option SecInfo)) (qs : List QBlock)
    (p : PageRec) : List QBlock :=
  let parts0 := cleanParts qBoundaryAt p.text
  let state :=
    match parts0 with
    | f :: restParts =>
      if !qBoundaryAt f then
        if qs.isEmpty then (qs, parts0) else (carryAppend f p.id qs, restParts)
      else (qs, parts0)
    | [] => (qs, parts0)
  state.2.foldl (questionItemStep lookup p) state.1

/-- `extract_questions` (src/qa_handler.py lines 125-168). -/
def extract_questions (pages : List PageRec) (lookup : List (Option SecInfo)) :
    List QBlock :=
  (practiceChunks pages lookup).foldl (extractQuestionsPage lookup) []

/- ===================== section_scanner.py / chapter_scanner.py ===================== -/

/-- The fields of one parsed JSONL page record that the scanners read
(`pdf_page_number` and `text`; a missing or zero page number and a missing or
empty text both make the page skipped, like Python falsiness at
src/section_scanner.py line 170). -/
structure PageIn where
  pdf_page_number : Nat
  text : String
deriving DecidableEq, Repr

/-- `SectionBoundary` of src/section_scanner.py (lines 24-32). -/
structure SectionBoundary where
  section_number : String
  page_start : Nat
  page_end : Option Nat := none
  section_title : Option String := none
  chapter_number : Nat := 1
  depth : Nat := 1
deriving DecidableEq, Repr

/-- `int(section_num.split('.')[0])` (src/section_scanner.py line 187); the
detector's outputs always start with digits. -/
def chapterOfSectionNum (s : String) : Nat :=
  parseDigits ((s.data.takeWhile (fun c => c ≠ '.')).takeWhile Char.isDigit)

/-- One iteration of the scanning loop of `scan_pagerecords_for_sections`
(lines 156-203) over the state (recorded sections, seen section numbers, last
page number).  `detect` stands for `detect_section_at_page_start`, returning
`(section_number, title, depth)`. -/
def sectionScanStep (detect : String → Option (String × Option String × Nat))
    (st : List SectionBoundary × List String × Nat) (p : PageIn) :
    List SectionBoundary × List String × Nat :=
  if p.pdf_page_number = 0 ∨ p.text = "" then st
  else
    let lastp := max st.2.2 p.pdf_page_number
    match detect p.text with
    | none => (st.1, st.2.1, lastp)
    | some (num, title, depth) =>
      if num ∈ st.2.1 then (st.1, st.2.1, lastp)
      else
        (st.1 ++ [{ section_number := num
                    page_start := p.pdf_page_number
                    section_title := title
                    chapter_number := chapterOfSectionNum num
                    depth := depth }],
         st.2.1 ++ [num], lastp)

/-- The `page_end` pass (lines 209-213): each section's end is the next
section's start minus one; the last section ends at the last page seen. -/
def computeEnds : List SectionBoundary → Nat → List SectionBoundary
  | [], _ => []
  | [s], lastp => [{ s with page_end := some lastp }]
  | s :: s2 :: rest, lastp =>
    { s with page_end := some (s2.page_start - 1) } :: computeEnds (s2 :: rest) lastp

/-- The `last_page_num` tracked by the scanning loop (src/section_scanner.py
lines 150 and 174): the greatest page number among the non-skipped pages. -/
def lastPageNum (pages : List PageIn) : Nat :=
  pages.foldl (fun m p =>
    if p.pdf_page_number = 0 ∨ p.text = "" then m else max m p.pdf_page_number) 0

/-- `scan_pagerecords_for_sections` (src/section_scanner.py lines 126-231),
parameterised by the page-start detector; the verbose printing is dropped. -/
def scan_pagerecords_for_sections
    (detect : String → Option (String × Option String × Nat))
    (pages : List PageIn) : List SectionBoundary :=
  let st := pages.foldl (sectionScanStep detect) ([], [], 0)
  computeEnds (st.1.mergeSort (fun a b => a.page_start ≤ b.page_start)) st.2.2

/-- `SpecialPageType` of src/chapter_scanner.py (lines 18-24). -/
structure SpecialPageType where
  page_type : String
  page_number : Nat
  chapter_number : Option Nat := none
  title : Option String := none
deriving DecidableEq, Repr

/-- `ChapterBoundary` of src/chapter_scanner.py (lines 30-36): note it has no
end-page field. -/
structure ChapterScanBoundary where
  chapter_number : Nat
  page_number : Nat
  chapter_title : Option String := none
  special_pages : List SpecialPageType := []
deriving DecidableEq, Repr

/-- Values appearing in the JSON-serialisable dicts the scanners emit. -/
inductive PyVal where
  | vNone : PyVal
  | vInt : Nat → PyVal
  | vStr : String → PyVal
  | vList : List PyVal → PyVal
  | vDict : List (String × PyVal) → PyVal
deriving Repr

/-- Optional string to JSON value. -/
def optStrVal : Option String → PyVal
  | none => PyVal.vNone
  | some s => PyVal.vStr s

/-- `SpecialPageType` as serialised inside `ChapterBoundary.to_dict`
(src/chapter_scanner.py lines 60-67). -/
def SpecialPageType.to_dict (sp : SpecialPageType) : PyVal :=
  PyVal.vDict [("type", PyVal.vStr sp.page_type),
               ("page", PyVal.vInt sp.page_number),
               ("title", optStrVal sp.title)]

/-- `ChapterBoundary.to_dict` (src/chapter_scanner.py lines 54-68): the
serialised chapter boundary carries exactly these four keys. -/
def ChapterScanBoundary.to_dict (b : ChapterScanBoundary) : List (String × PyVal) :=
  [("chapter_number", PyVal.vInt b.chapter_number),
   ("page_number", PyVal.vInt b.page_number),
   ("chapter_title", optStrVal b.chapter_title),
   ("special_pages", PyVal.vList (b.special_pages.map SpecialPageType.to_dict))]

/-- Configuration arguments of `scan_pagerecords_for_chapters`. -/
structure ChapterScanCfg where
  min_chapter : Nat := 1
  max_chapter : Nat := 50
  min_page_gap : Nat := 5
  detect_special_pages : Bool := true
deriving Repr

/-- One iteration of the scanning loop of `scan_pagerecords_for_chapters`
(src/chapter_scanner.py lines 194-249) over the state (boundaries, seen
chapter numbers, last accepted page).  `detect` stands for
`detect_chapter_at_page_start` and `detectSpecial` for
`detect_special_page_type`; `current_chapter` always aliases the most
recently appended boundary, so the special-page branch updates the last list
element.  The gap test uses integer subtraction as Python does. -/
def chapterScanStep (cfg : ChapterScanCfg)
    (detect : String → Option (Nat × Option String))
    (detectSpecial : String → Option (String × String))
    (st : List ChapterScanBoundary × List Nat × Nat) (p : PageIn) :
    List ChapterScanBoundary × List Nat × Nat :=
  if p.pdf_page_number = 0 ∨ p.text = "" then st
  else
    match detect p.text with
    | some (cn, title) =>
      if ¬ (cfg.min_chapter ≤ cn ∧ cn ≤ cfg.max_chapter) then st
      else if cn ∈ st.2.1 then st
      else if st.2.2 > 0 ∧ (p.pdf_page_number : Int) - (st.2.2 : Int) < (cfg.min_page_gap : Int) then st
      else
        (st.1 ++ [{ chapter_number := cn
                    page_number := p.pdf_page_number
                    chapter_title := title }],
         st.2.1 ++ [cn], p.pdf_page_number)
    | none =>
      if cfg.detect_special_pages ∧ ¬ st.1.isEmpty then
        match detectSpecial p.text with
        | some (ptype, mtext) =>
          (modifyLast (fun b =>
            { b with special_pages := b.special_pages ++
                [{ page_type := ptype
                   page_number := p.pdf_page_number
                   chapter_number := some b.chapter_number
                   title := some mtext }] }) st.1,
           st.2.1, st.2.2)
        | none => st
      else st

/-- `scan_pagerecords_for_chapters` (src/chapter_scanner.py lines 157-275),
parameterised by the two detectors; printing and the advisory missing-chapter
summary are dropped. -/
def scan_pagerecords_for_chapters (cfg : ChapterScanCfg)
    (detect : String → Option (Nat × Option String))
    (detectSpecial : String → Option (String × String))
    (pages : List PageIn) : List ChapterScanBoundary :=
  let st := pages.foldl (chapterScanStep cfg detect detectSpecial) ([], [], 0)
  st.1.mergeSort (fun a b => a.page_number ≤ b.page_number)

/- ===================== regex_parts.py: chapter detection ===================== -/

/-- `ChapterRecord` of src/regex_parts.py (lines 7-13). -/
structure RPChapterRecord where
  chapter_number : Nat
  chapter_title : String
  page_number : Option Nat := none
  start_position : Nat := 0
  full_match : String := ""
deriving DecidableEq, Repr

/-- Case-insensitive literal prefix match, returning the remaining input. -/
def startsWithCI : List Char → List Char → Option (List Char)
  | [], cs => some cs
  | _, [] => none
  | p :: ps, c :: cs => if c.toLower = p.toLower then startsWithCI ps cs else none

/-- The separator class `[:\-–—]` of the chapter patterns. -/
def isSepChar (c : Char) : Bool :=
  c = ':' || c = '-' || c = '–' || c = '—'

/-- Matcher for `\s+`, returning the input after the (maximal, non-empty)
whitespace run. -/
def matchWsPlus (cs : List Char) : Option (List Char) :=
  if (cs.takeWhile isPySpace).isEmpty then none else some (cs.dropWhile isPySpace)

/-- Matcher for `\d+` as a capture, returning the digit run and the rest. -/
def matchDigitsPlus (cs : List Char) : Option (List Char × List Char) :=
  let ds := cs.takeWhile Char.isDigit
  if ds.isEmpty then none else some (ds, cs.dropWhile Char.isDigit)

/-- Matcher for the common pattern tail `\s*[:\-–—]\s*(.+?)$`: skip
whitespace, require one separator character, require a non-empty remainder.
The returned characters are the remainder after the separator; group 2 of the
regex differs from it only by leading whitespace, which the caller's
`.strip()` removes anyway. -/
def matchSepRest (cs : List Char) : Option (List Char) :=
  match cs.dropWhile isPySpace with
  | c :: rest => if isSepChar c then (if rest.isEmpty then none else some rest) else none
  | [] => none

/-- Pattern `^Chapter\s+(\d+)\s*[:\-–—]\s*(.+?)$` (case-insensitive),
returning the captured numeral token and the title suffix. -/
def chapPat1 (cs : List Char) : Option (List Char × Option (List Char)) :=
  (startsWithCI "chapter".data cs).bind fun r1 =>
  (matchWsPlus r1).bind fun r2 =>
  (matchDigitsPlus r2).bind fun dr =>
  (matchSepRest dr.2).map fun rest => (dr.1, some rest)

/-- Pattern `^Chapter\s+(\d+)\s*$` (case-insensitive). -/
def chapPat2 (cs : List Char) : Option (List Char × Option (List Char)) :=
  (startsWithCI "chapter".data cs).bind fun r1 =>
  (matchWsPlus r1).bind fun r2 =>
  (matchDigitsPlus r2).bind fun dr =>
  if (dr.2.dropWhile isPySpace).isEmpty then some (dr.1, none) else none

/-- The word alternation of the third chapter pattern, in source order.  No
listed word is a prefix of another, so at most one alternative can match at a
given position and the regex backtracking is vacuous. -/
def chapterWordAlts : List (List Char) :=
  ["One".data, "Two".data, "Three".data, "Four".data, "Five".data, "Six".data,
   "Seven".data, "Eight".data, "Nine".data, "Ten".data, "Eleven".data,
   "Twelve".data]

/-- Pattern
`^Chapter\s+(One|Two|Three|Four|Five|Six|Seven|Eight|Nine|Ten|Eleven|Twelve)\s*[:\-–—]\s*(.+?)$`
(case-insensitive); the capture is the word as spelt in the line. -/
def chapPat3 (cs : List Char) : Option (List Char × Option (List Char)) :=
  (startsWithCI "chapter".data cs).bind fun r1 =>
  (matchWsPlus r1).bind fun r2 =>
  (chapterWordAlts.findSome? fun w =>
    (startsWithCI w r2).map fun rest => (r2.take w.length, rest)).bind fun wr =>
  (matchSepRest wr.2).map fun rest => (wr.1, some rest)

/-- Pattern `^Ch\.?\s+(\d+)\s*[:\-–—]\s*(.+?)$` (case-insensitive); the
optional dot is deterministic because `.` is not a whitespace character. -/
def chapPat4 (cs : List Char) : Option (List Char × Option (List Char)) :=
  (startsWithCI "ch".data cs).bind fun r1 =>
  let r1' := match r1 with
    | '.' :: rest => rest
    | _ => r1
  (matchWsPlus r1').bind fun r2 =>
  (matchDigitsPlus r2).bind fun dr =>
  (matchSepRest dr.2).map fun rest => (dr.1, some rest)

/-- `CHAPTER_PATTERNS` of src/regex_parts.py (lines 35-51), in order. -/
def chapterPatterns : List (List Char → Option (List Char × Option (List Char))) :=
  [chapPat1, chapPat2, chapPat3, chapPat4]

/-- `WORD_TO_NUMBER` (src/regex_parts.py lines 53-57), looked up on the
lowercased token. -/
def wordToNumber (w : List Char) : Option Nat :=
  if w = "one".data then some 1 else if w = "two".data then some 2
  else if w = "three".data then some 3 else if w = "four".data then some 4
  else if w = "five".data then some 5 else if w = "six".data then some 6
  else if w = "seven".data then some 7 else if w = "eight".data then some 8
  else if w = "nine".data then some 9 else if w = "ten".data then some 10
  else if w = "eleven".data then some 11 else if w = "twelve".data then some 12
  else if w = "thirteen".data then some 13 else if w = "fourteen".data then some 14
  else if w = "fifteen".data then some 15 else none

/-- `ROMAN_TO_NUMBER` (src/regex_parts.py lines 59-63), looked up
case-sensitively as the source does. -/
def romanToNumber (w : List Char) : Option Nat :=
  if w = "I".data then some 1 else if w = "II".data then some 2
  else if w = "III".data then some 3 else if w = "IV".data then some 4
  else if w = "V".data then some 5 else if w = "VI".data then some 6
  else if w = "VII".data then some 7 else if w = "VIII".data then some 8
  else if w = "IX".data then some 9 else if w = "X".data then some 10
  else if w = "XI".data then some 11 else if w = "XII".data then some 12
  else if w = "XIII".data then some 13 else if w = "XIV".data then some 14
  else if w = "XV".data then some 15 else none

/-- The numeral conversion of `find_chapters` (src/regex_parts.py lines
212-220): `isdigit` then the word table on the lowercased token then the
Roman table. -/
def numeralValue (tok : List Char) : Option Nat :=
  if !tok.isEmpty && tok.all Char.isDigit then some (parseDigits tok)
  else
    match wordToNumber (tok.map Char.toLower) with
    | some n => some n
    | none => romanToNumber tok

/-- The inner pattern loop of `find_chapters` (lines 206-233): first matching
pattern wins; a match whose numeral token is unrecognized makes the loop
`continue` with the remaining patterns. -/
def tryChapterPatterns :
    List (List Char → Option (List Char × Option (List Char))) → List Char →
    Option (Nat × String)
  | [], _ => none
  | p :: ps, cs =>
    match p cs with
    | some (tok, titleSuffix) =>
      match numeralValue tok with
      | some n =>
        some (n, match titleSuffix with
          | some t => pyStrip (String.mk t)
          | none => "")
      | none => tryChapterPatterns ps cs
    | none => tryChapterPatterns ps cs

/-- Python `text.split('\n')`: split at every newline, keeping empty pieces
(`""` splits to `[""]`). -/
def splitOnNl : List Char → List (List Char)
  | [] => [[]]
  | c :: rest =>
    match splitOnNl rest with
    | l :: ls => if c = '\n' then [] :: l :: ls else (c :: l) :: ls
    | [] => [[c]]

/-- `find_chapters` (src/regex_parts.py lines 197-235). -/
def find_chapters (text : String) (page_number : Option Nat) : List RPChapterRecord :=
  ((splitOnNl text.data).map String.mk).enum.foldl (fun acc il =>
    let l := pyStrip il.2
    if l = "" then acc
    else
      match tryChapterPatterns chapterPatterns l.data with
      | some nt =>
        acc ++ [{ chapter_number := nt.1
                  chapter_title := nt.2
                  page_number := page_number
                  start_position := il.1
                  full_match := l }]
      | none => acc) []

/- ===================== concrete sample inputs used by counterexamples and witnesses ===================== -/

/-- A well-formed solutions block carrying answer number 1 (shaped like the
output of `extract_answers` on a solutions page). -/
def sampleSolutionsBlock : ABlock :=
  { anum := 1
    choice := "A"
    raw := "1. The correct answer is (A). Because x."
    answer_text := "Because x."
    page_ids := ["page-9"]
    pdf_pages := [9]
    section_title := some "Chapter 2 Exercise Solutions"
    section_label := some "solutions" }

/-- The twelve word-numeral alternatives of the third chapter pattern with
the values `WORD_TO_NUMBER` assigns them. -/
def chapterWordValues : List (String × Nat) :=
  [("One", 1), ("Two", 2), ("Three", 3), ("Four", 4), ("Five", 5), ("Six", 6),
   ("Seven", 7), ("Eight", 8), ("Nine", 9), ("Ten", 10), ("Eleven", 11),
   ("Twelve", 12)]

/- ===================== helper lemmas ===================== -/

theorem find?_replaceKey (m : List (String × ABlock)) (ka k : String) (v : ABlock) :
    List.find? (fun p => p.1 = k) (m.map (fun p => if p.1 = ka then (ka, v) else p)) =
      (List.find? (fun p => p.1 = k) m).map (fun p => if p.1 = ka then (ka, v) else p) := by
  induction m with
  | nil => rfl
  | cons a rest ih =>
    by_cases h1 : a.1 = ka
    · by_cases h2 : a.1 = k
      · have hka : ka = k := h1 ▸ h2
        subst hka
        simp [List.find?_cons, h1, h2]
      · have hne : ¬ (ka = k) := fun hc => h2 (h1.trans hc)
        simp [List.find?_cons, h1, h2, hne, ih]
    · by_cases h2 : a.1 = k
      · have hne : ¬ (k = ka) := fun hc => h1 (h2.trans hc)
        simp [List.find?_cons, h1, h2, hne]
      · simp [List.find?_cons, h1, h2, ih]

theorem find?_none_of_not_any (m : List (String × ABlock)) (k : String)
    (h : ¬ m.any (fun p => p.1 = k) = true) :
    List.find? (fun p => p.1 = k) m = none := by
  rw [List.find?_eq_none]
  intro p hp hc
  exact h (List.any_eq_true.mpr ⟨p, hp, hc⟩)

theorem dictGet_dictInsert (m : List (String × ABlock)) (ka k : String) (v : ABlock) :
    dictGet (dictInsert m ka v) k = if k = ka then some v else dictGet m k := by
  unfold dictInsert dictGet
  by_cases h : m.any (fun p => p.1 = ka)
  · simp only [h, if_true, find?_replaceKey]
    cases hfind : List.find? (fun p : String × ABlock => p.1 = k) m with
    | none =>
      rcases List.any_eq_true.mp h with ⟨p, hp, hpk⟩
      by_cases hk : k = ka
      · subst hk
        have := List.find?_eq_none.mp hfind p hp
        exact absurd hpk this
      · simp [hk]
    | some q =>
      have hqk : q.1 = k := by simpa using List.find?_some hfind
      by_cases hk : k = ka
      · subst hk
        simp [hqk]
      · have : ¬ (q.1 = ka) := fun hc => hk (hqk ▸ hc)
        simp [this, hk]
  · simp only [Bool.not_eq_true] at h
    simp only [h, Bool.false_eq_true, if_false, List.find?_append]
    by_cases hk : k = ka
    · subst hk
      have hnone := find?_none_of_not_any m k (by simp [h])
      simp [hnone, List.find?_cons]
    · cases hfind : List.find? (fun p : String × ABlock => p.1 = k) m with
      | none => simp [List.find?_cons, Ne.symm hk, hk]
      | some q => simp [hfind, hk]

theorem find?_reverse_eq_getLast?_filter (p : α → Bool) (l : List α) :
    l.reverse.find? p = (l.filter p).getLast? := by
  rw [← List.filter_head? p l.reverse, List.filter_reverse, List.head?_reverse]

theorem dictGet_foldIns (b : String) (abl : List ABlock) :
    ∀ (m : List (String × ABlock)) (k : String),
    dictGet (abl.foldl (fun m a => dictInsert m (akey b a) a) m) k =
      match abl.reverse.find? (fun a => akey b a = k) with
      | some a => some a
      | none => dictGet m k := by
  induction abl with
  | nil => intro m k; rfl
  | cons a rest ih =>
    intro m k
    simp only [List.foldl_cons, List.reverse_cons, List.find?_append, ih,
      dictGet_dictInsert]
    cases hr : rest.reverse.find? (fun a => akey b a = k) with
    | some x => simp
    | none =>
      by_cases hk : akey b a = k
      · subst hk
        simp [List.find?_cons]
      · have hne : ¬ (k = akey b a) := fun hc => hk hc.symm
        simp [List.find?_cons, hk, hne]

theorem dictGet_buildAMap (abl : List ABlock) (b k : String) :
    dictGet (buildAMap abl b) k = (abl.filter (fun a => akey b a = k)).getLast? := by
  rw [buildAMap, dictGet_foldIns, find?_reverse_eq_getLast?_filter]
  cases (abl.filter (fun a => akey b a = k)).getLast? <;> rfl

theorem matchGo_proj (b : String) (amap : List (String × ABlock)) (g : Nat → String) :
    ∀ (qs : List QBlock) (ctr : Nat),
    ((matchGo b amap g qs ctr).1.map (fun r => { r with id := "" }) =
      qs.map (fun q => mkQuestionRecord b "" q))
  ∧ ((matchGo b amap g qs ctr).2.map (fun r => { r with id := "" }) =
      qs.filterMap (fun q => (dictGet amap (qkey b q)).map (fun a => mkAnswerRecord b "" q a))) := by
  intro qs
  induction qs with
  | nil => intro ctr; exact ⟨rfl, rfl⟩
  | cons q rest ih =>
    intro ctr
    cases hd : dictGet amap (qkey b q) with
    | some a =>
      have h := ih (ctr + 2)
      constructor
      · simp [matchGo, hd, h.1, mkQuestionRecord]
      · simp [matchGo, hd, h.2, mkAnswerRecord]
    | none =>
      have h := ih (ctr + 1)
      constructor
      · simp [matchGo, hd, h.1, mkQuestionRecord]
      · simp [matchGo, hd, h.2]

/-- C1: in `match_questions_and_answers`, the answer map is built first with
last-writer-wins on duplicate keys (third conjunct); questions are iterated in
document order and exactly one `QuestionRecord` is emitted per question block
regardless of match status (first conjunct, an equality of whole lists up to
the random `uuid4` record id); an `AnswerRecord` is emitted for a question if
and only if the answer map contains that question's key (second conjunct, the
`filterMap` keeps exactly the questions whose key has a map entry). -/
theorem c1_match_emission (qs : List QBlock) (ablocks : List ABlock)
    (b : String) (g : Nat → String) :
    ((match_questions_and_answers qs ablocks b g).1.map (fun r => { r with id := "" }) =
        qs.map (fun q => mkQuestionRecord b "" q))
  ∧ ((match_questions_and_answers qs ablocks b g).2.map (fun r => { r with id := "" }) =
        qs.filterMap (fun q =>
          (dictGet (buildAMap ablocks b) (qkey b q)).map (fun a => mkAnswerRecord b "" q a)))
  ∧ (∀ k, dictGet (buildAMap ablocks b) k =
        (ablocks.filter (fun a => akey b a = k)).getLast?) :=
  ⟨(matchGo_proj b (buildAMap ablocks b) g qs 0).1,
   (matchGo_proj b (buildAMap ablocks b) g qs 0).2,
   fun k => dictGet_buildAMap ablocks b k⟩

/-- C5: the qa-key derivation is deterministic.  The emitted records are
independent of the `uuid.uuid4` supply `g` except for the record `id` field
(first two conjuncts); every emitted question record carries exactly the key
`canonical_problem_key book (chapter_key section_title) number` of its block
(third conjunct); and the derived pair id of every emitted record is the pure
function `qa_id_from_problem_key` (SHA-1 based `uuid5`) of its key (last two
conjuncts), so identical inputs always yield identical keys and pair ids. -/
theorem c5_determinism (qs : List QBlock) (ablocks : List ABlock) (b : String)
    (g g' : Nat → String) :
    ((match_questions_and_answers qs ablocks b g).1.map (fun r => { r with id := "" }) =
     (match_questions_and_answers qs ablocks b g').1.map (fun r => { r with id := "" }))
  ∧ ((match_questions_and_answers qs ablocks b g).2.map (fun r => { r with id := "" }) =
     (match_questions_and_answers qs ablocks b g').2.map (fun r => { r with id := "" }))
  ∧ ((match_questions_and_answers qs ablocks b g).1.map (fun r => r.problem_key) =
      qs.map (fun q => canonical_problem_key b (chapter_key q.section_title) q.qnum))
  ∧ ((match_questions_and_answers qs ablocks b g).1.map (fun r => r.qa_id) =
     (match_questions_and_answers qs ablocks b g).1.map
        (fun r => qa_id_from_problem_key r.problem_key))
  ∧ ((match_questions_and_answers qs ablocks b g).2.map (fun r => r.qa_id) =
     (match_questions_and_answers qs ablocks b g).2.map
        (fun r => qa_id_from_problem_key r.problem_key)) := by
  have h1 := (matchGo_proj b (buildAMap ablocks b) g qs 0).1
  have h2 := (matchGo_proj b (buildAMap ablocks b) g qs 0).2
  have h1' := (matchGo_proj b (buildAMap ablocks b) g' qs 0).1
  have h2' := (matchGo_proj b (buildAMap ablocks b) g' qs 0).2
  refine ⟨h1.trans h1'.symm, h2.trans h2'.symm, ?_, ?_, ?_⟩
  · show (matchGo b (buildAMap ablocks b) g qs 0).1.map (fun r => r.problem_key) = _
    have := congrArg (List.map (fun r : QuestionRecord => r.problem_key)) h1
    simpa [List.map_map, Function.comp, mkQuestionRecord, qkey] using this
  · show (matchGo b (buildAMap ablocks b) g qs 0).1.map (fun r => r.qa_id) =
      (matchGo b (buildAMap ablocks b) g qs 0).1.map (fun r => qa_id_from_problem_key r.problem_key)
    have ha := congrArg (List.map (fun r : QuestionRecord => r.qa_id)) h1
    have hb := congrArg (List.map (fun r : QuestionRecord => qa_id_from_problem_key r.problem_key)) h1
    simp only [List.map_map] at ha hb
    have : ((fun r : QuestionRecord => r.qa_id) ∘ fun r => { r with id := "" }) =
        (fun r : QuestionRecord => r.qa_id) := rfl
    rw [this] at ha
    have : ((fun r : QuestionRecord => qa_id_from_problem_key r.problem_key) ∘
        fun r => { r with id := "" }) =
        (fun r : QuestionRecord => qa_id_from_problem_key r.problem_key) := rfl
    rw [this] at hb
    rw [ha, hb]
    simp [Function.comp, mkQuestionRecord]
  · show (matchGo b (buildAMap ablocks b) g qs 0).2.map (fun r => r.qa_id) =
      (matchGo b (buildAMap ablocks b) g qs 0).2.map (fun r => qa_id_from_problem_key r.problem_key)
    have ha := congrArg (List.map (fun r : AnswerRecord => r.qa_id)) h2
    have hb := congrArg (List.map (fun r : AnswerRecord => qa_id_from_problem_key r.problem_key)) h2
    simp only [List.map_map] at ha hb
    have e1 : ((fun r : AnswerRecord => r.qa_id) ∘ fun r => { r with id := "" }) =
        (fun r : AnswerRecord => r.qa_id) := rfl
    rw [e1] at ha
    have e2 : ((fun r : AnswerRecord => qa_id_from_problem_key r.problem_key) ∘
        fun r => { r with id := "" }) =
        (fun r : AnswerRecord => qa_id_from_problem_key r.problem_key) := rfl
    rw [e2] at hb
    rw [ha, hb]
    simp only [List.map_filterMap, Option.map_map]
    rfl

/-- C10: for every matched question/answer pair, the emitted `AnswerRecord`
has `section_titles` equal to the singleton of the question block's section
title, and `section_labels` equal to the singleton of the question block's
section label when the answer block's section label is truthy (non-empty and
non-`None`), otherwise the empty set. -/
theorem c10_answer_section_fields (qs : List QBlock) (ablocks : List ABlock)
    (b : String) (g : Nat → String) :
    (match_questions_and_answers qs ablocks b g).2.map
        (fun r => (r.section_titles, r.section_labels)) =
      qs.filterMap (fun q => (dictGet (buildAMap ablocks b) (qkey b q)).map (fun a =>
        (([q.section_title] : List (Option String)),
         if pyTruthyStr a.section_label then ([q.section_label] : List (Option String))
         else []))) := by
  have h2 := (matchGo_proj b (buildAMap ablocks b) g qs 0).2
  have := congrArg (List.map (fun r : AnswerRecord => (r.section_titles, r.section_labels))) h2
  simp only [List.map_map] at this
  have e : ((fun r : AnswerRecord => (r.section_titles, r.section_labels)) ∘
      fun r => { r with id := "" }) =
      (fun r : AnswerRecord => (r.section_titles, r.section_labels)) := rfl
  rw [e] at this
  rw [show (match_questions_and_answers qs ablocks b g).2.map
      (fun r : AnswerRecord => (r.section_titles, r.section_labels)) =
      (matchGo b (buildAMap ablocks b) g qs 0).2.map
      (fun r : AnswerRecord => (r.section_titles, r.section_labels)) from rfl, this]
  simp only [List.map_filterMap, Option.map_map]
  rfl

theorem qKeys_of_match (qs : List QBlock) (ablocks : List ABlock) (b : String)
    (g : Nat → String) :
    (match_questions_and_answers qs ablocks b g).1.map (fun r => r.problem_key) =
      qs.map (fun q => qkey b q) := by
  show (matchGo b (buildAMap ablocks b) g qs 0).1.map (fun r => r.problem_key) = _
  have := congrArg (List.map (fun r : QuestionRecord => r.problem_key))
    (matchGo_proj b (buildAMap ablocks b) g qs 0).1
  simpa [List.map_map, Function.comp, mkQuestionRecord] using this

theorem aKeys_of_match (qs : List QBlock) (ablocks : List ABlock) (b : String)
    (g : Nat → String) :
    (match_questions_and_answers qs ablocks b g).2.map (fun r => r.problem_key) =
      qs.filterMap (fun q =>
        (dictGet (buildAMap ablocks b) (qkey b q)).map (fun _ => qkey b q)) := by
  show (matchGo b (buildAMap ablocks b) g qs 0).2.map (fun r => r.problem_key) = _
  have := congrArg (List.map (fun r : AnswerRecord => r.problem_key))
    (matchGo_proj b (buildAMap ablocks b) g qs 0).2
  simp only [List.map_map] at this
  have e : ((fun r : AnswerRecord => r.problem_key) ∘ fun r => { r with id := "" }) =
      (fun r : AnswerRecord => r.problem_key) := rfl
  rw [e] at this
  rw [this]
  simp only [List.map_filterMap, Option.map_map]
  rfl

theorem unmatched_answers_always_zero (qs : List QBlock) (ablocks : List ABlock)
    (b : String) (g : Nat → String) :
    (matchReport qs ablocks b g).2.2.2.2 = 0 := by
  have ha := aKeys_of_match qs ablocks b g
  have hq := qKeys_of_match qs ablocks b g
  show diffCount ((match_questions_and_answers qs ablocks b g).2.map (fun r => r.problem_key))
    ((match_questions_and_answers qs ablocks b g).1.map (fun r => r.problem_key)) = 0
  rw [ha, hq]
  unfold diffCount
  rw [List.length_eq_zero]
  rw [List.filter_eq_nil]
  intro k hk
  have hk' : k ∈ qs.filterMap (fun q =>
      (dictGet (buildAMap ablocks b) (qkey b q)).map (fun _ => qkey b q)) :=
    List.mem_dedup.mp hk
  rcases List.mem_filterMap.mp hk' with ⟨q, hq1, hq2⟩
  have : k = qkey b q := by
    cases hd : dictGet (buildAMap ablocks b) (qkey b q) with
    | none => rw [hd] at hq2; exact absurd hq2 (by simp)
    | some a => rw [hd] at hq2; simpa using hq2.symm
  subst this
  simp only [decide_not, Bool.not_eq_eq_eq_not, Bool.not_true, decide_eq_false_iff_not,
    Decidable.not_not]
  exact List.mem_map.mpr ⟨q, hq1, rfl⟩

theorem takeWhile_append_of_all {p : Char → Bool} (l r : List Char) (x : Char)
    (hl : ∀ c ∈ l, p c = true) (hx : p x = false) :
    (l ++ x :: r).takeWhile p = l := by
  induction l with
  | nil => simp [List.takeWhile, hx]
  | cons a rest ih =>
    have ha : p a = true := hl a (by simp)
    simp only [List.cons_append, List.takeWhile_cons, ha, if_true]
    rw [ih (fun c hc => hl c (by simp [hc]))]

theorem dropWhile_append_of_all {p : Char → Bool} (l r : List Char) (x : Char)
    (hl : ∀ c ∈ l, p c = true) (hx : p x = false) :
    (l ++ x :: r).dropWhile p = x :: r := by
  induction l with
  | nil => simp [List.dropWhile, hx]
  | cons a rest ih =>
    have ha : p a = true := hl a (by simp)
    simp only [List.cons_append, List.dropWhile_cons, ha, if_true]
    exact ih (fun c hc => hl c (by simp [hc]))

theorem splitOnNl_no_newline (l : List Char) (h : ∀ c ∈ l, ¬ c = '\n') :
    splitOnNl l = [l] := by
  induction l with
  | nil => rfl
  | cons a rest ih =>
    have ha : ¬ a = '\n' := h a (by simp)
    simp only [splitOnNl, ih (fun c hc => h c (by simp [hc])), if_neg]
    simp [ha]

theorem isPySpace_eq_false_of_isDigit (c : Char) (h : c.isDigit = true) :
    isPySpace c = false := by
  by_contra hc
  simp only [Bool.not_eq_false, isPySpace, Bool.or_eq_true, decide_eq_true_eq] at hc
  rcases hc with ((((h1 | h1) | h1) | h1) | h1) | h1 <;> subst h1 <;> exact absurd h (by decide)

theorem ne_newline_of_isDigit (c : Char) (h : c.isDigit = true) : ¬ c = '\n' := by
  intro hc
  subst hc
  exact absurd h (by decide)


theorem pyStripList_eq_self (l : List Char)
    (hh : ∀ c, l.head? = some c → isPySpace c = false)
    (hl : ∀ c, l.getLast? = some c → isPySpace c = false) :
    pyStripList l = l := by
  unfold pyStripList
  cases l with
  | nil => rfl
  | cons a t =>
    have ha := hh a rfl
    rw [List.dropWhile_cons, ha]
    simp only [Bool.false_eq_true, if_false]
    cases hr : (a :: t).reverse with
    | nil => exact absurd hr (by simp)
    | cons b u =>
      have hb : (a :: t).getLast? = some b := by
        rw [← List.head?_reverse, hr]
        rfl
      rw [List.dropWhile_cons, hl b hb]
      simp only [Bool.false_eq_true, if_false]
      rw [← hr, List.reverse_reverse]


theorem matchWsPlus_space_digit (d : Char) (r : List Char) (hd : isPySpace d = false) :
    matchWsPlus (' ' :: d :: r) = some (d :: r) := by
  have hsp : isPySpace ' ' = true := rfl
  simp [matchWsPlus, List.takeWhile_cons, List.dropWhile_cons, hsp, hd]

theorem matchDigitsPlus_digits (d : Char) (ds : List Char) (x : Char) (r : List Char)
    (hd : d.isDigit = true) (hds : ∀ c ∈ ds, c.isDigit = true) (hx : x.isDigit = false) :
    matchDigitsPlus (d :: (ds ++ x :: r)) = some (d :: ds, x :: r) := by
  unfold matchDigitsPlus
  rw [List.takeWhile_cons, List.dropWhile_cons]
  rw [takeWhile_append_of_all ds r x hds hx, dropWhile_append_of_all ds r x hds hx]
  simp [hd]

theorem c8_amended_test (ds : List Char) (h1 : ds ≠ []) (h2 : ∀ c ∈ ds, c.isDigit = true) :
    find_chapters (String.mk ("Chapter ".data ++ ds ++ ": Title".data)) none =
      [{ chapter_number := parseDigits ds
         chapter_title := "Title"
         page_number := none
         start_position := 0
         full_match := String.mk ("Chapter ".data ++ ds ++ ": Title".data) }] := by
  obtain ⟨d, ds', rfl⟩ : ∃ d ds', ds = d :: ds' := by
    cases ds with
    | nil => exact absurd rfl h1
    | cons d ds' => exact ⟨d, ds', rfl⟩
  rw [List.append_assoc]
  have hd : d.isDigit = true := h2 d (by simp)
  have hds' : ∀ c ∈ ds', c.isDigit = true := fun c hc => h2 c (by simp [hc])
  have hA : ∀ c ∈ "Chapter ".data, ¬ c = '\n' := by decide
  have hT : ∀ c ∈ ": Title".data, ¬ c = '\n' := by decide
  have hnl : ∀ c ∈ "Chapter ".data ++ ((d :: ds') ++ ": Title".data), ¬ c = '\n' := by
    intro c hc
    rcases List.mem_append.mp hc with hc1 | hc1
    · exact hA c hc1
    · rcases List.mem_append.mp hc1 with hc2 | hc2
      · exact ne_newline_of_isDigit c (h2 c hc2)
      · exact hT c hc2
  have hhead : ("Chapter ".data ++ ((d :: ds') ++ ": Title".data)).head? = some 'C' := rfl
  have hlast : ("Chapter ".data ++ ((d :: ds') ++ ": Title".data)).getLast? = some 'e' := by
    rw [← List.append_assoc]
    rw [show ": Title".data = ':' :: " Title".data from rfl]
    rw [List.getLast?_append_cons]
    rfl
  have hstrip : pyStripList ("Chapter ".data ++ ((d :: ds') ++ ": Title".data)) =
      "Chapter ".data ++ ((d :: ds') ++ ": Title".data) := by
    apply pyStripList_eq_self
    · intro c hc
      rw [hhead] at hc
      cases hc
      decide
    · intro c hc
      rw [hlast] at hc
      cases hc
      decide
  have hpat1 : chapPat1 ("Chapter ".data ++ ((d :: ds') ++ ": Title".data)) =
      some (d :: ds', some " Title".data) := by
    unfold chapPat1
    have e1 : startsWithCI "chapter".data ("Chapter ".data ++ ((d :: ds') ++ ": Title".data)) =
        some (' ' :: ((d :: ds') ++ ": Title".data)) := rfl
    rw [e1, Option.some_bind]
    have e2 : matchWsPlus (' ' :: ((d :: ds') ++ ": Title".data)) =
        some (d :: (ds' ++ ": Title".data)) := by
      rw [show (d :: ds') ++ ": Title".data = d :: (ds' ++ ": Title".data) from rfl]
      exact matchWsPlus_space_digit d (ds' ++ ": Title".data)
        (isPySpace_eq_false_of_isDigit d hd)
    rw [e2, Option.some_bind]
    have e3 : matchDigitsPlus (d :: (ds' ++ ": Title".data)) =
        some (d :: ds', ": Title".data) := by
      rw [show ": Title".data = ':' :: " Title".data from rfl]
      exact matchDigitsPlus_digits d ds' ':' " Title".data hd hds' (by decide)
    rw [e3, Option.some_bind]
    rfl
  have htry : tryChapterPatterns chapterPatterns
      ("Chapter ".data ++ ((d :: ds') ++ ": Title".data)) =
      some (parseDigits (d :: ds'), "Title") := by
    have hnum : numeralValue (d :: ds') = some (parseDigits (d :: ds')) := by
      unfold numeralValue
      have : (d :: ds').all Char.isDigit = true := List.all_eq_true.mpr h2
      simp [this]
    rw [show chapterPatterns = [chapPat1, chapPat2, chapPat3, chapPat4] from rfl]
    simp only [tryChapterPatterns, hpat1, hnum]
    rfl
  unfold find_chapters
  rw [show (String.mk ("Chapter ".data ++ ((d :: ds') ++ ": Title".data))).data =
      "Chapter ".data ++ ((d :: ds') ++ ": Title".data) from rfl]
  rw [splitOnNl_no_newline _ hnl]
  simp only [List.map_cons, List.map_nil, List.enum, List.enumFrom, List.foldl_cons,
    List.foldl_nil]
  have hstr : pyStrip (String.mk ("Chapter ".data ++ ((d :: ds') ++ ": Title".data))) =
      String.mk ("Chapter ".data ++ ((d :: ds') ++ ": Title".data)) :=
    congrArg String.mk hstrip
  have hne : ¬ (String.mk ("Chapter ".data ++ ((d :: ds') ++ ": Title".data)) = "") := by
    intro hx
    have hdata := congrArg String.data hx
    simp at hdata
  simp only [hstr, if_neg hne]
  rw [show ['C', 'h', 'a', 'p', 't', 'e', 'r', ' '] = "Chapter ".data from rfl,
    show [':', ' ', 'T', 'i', 't', 'l', 'e'] = ": Title".data from rfl, htry]
  rfl

/-- C4: the match report does not count the full answer key set.  On the
failing input (no questions, one well-formed answer block) the code prints
`(questions, answers, matched, unmatched questions, unmatched answers) =
(0, 0, 0, 0, 0)` although the full answer key set has one element, and in
general the reported unmatched-answer count is identically zero because
`a_keys` is computed from the emitted (matched-only) answer records. -/
theorem c4_report_counts_bug :
    matchReport [] [sampleSolutionsBlock] "bk" (fun _ => "") = (0, 0, 0, 0, 0)
  ∧ distinctCount ([sampleSolutionsBlock].map (akey "bk")) = 1
  ∧ ∀ (qs : List QBlock) (ablocks : List ABlock) (b : String) (g : Nat → String),
      (matchReport qs ablocks b g).2.2.2.2 = 0 :=
  ⟨by decide, by decide, unmatched_answers_always_zero⟩

/-- C8 counterexample: the claim says chapter numeral extraction accepts every
Roman numeral I..XV and every word numeral one..fifteen, but a line using a
Roman numeral (or thirteen..fifteen) is matched by no chapter pattern, so
`find_chapters` returns no record at all for it. -/
theorem c8_counterexample :
    find_chapters "Chapter XIV: Introduction" none = []
  ∧ find_chapters "Chapter Thirteen: Introduction" none = [] := by
  constructor <;> decide

/-- C8 (amended): chapter numeral extraction accepts Arabic digit numerals
(first conjunct, for an arbitrary non-empty digit string) and the word
numerals one through twelve (second conjunct); the word numerals thirteen to
fifteen and the Roman numerals are present only in the conversion tables and
are never produced by any pattern of `CHAPTER_PATTERNS`, so lines using them
yield no record (see the counterexample), and the skip-and-continue branch of
the numeral conversion is unreachable. -/
theorem c8_numeral_extraction_amended (ds : List Char) (h1 : ds ≠ [])
    (h2 : ∀ c ∈ ds, c.isDigit = true) :
    (find_chapters (String.mk ("Chapter ".data ++ ds ++ ": Title".data)) none =
      [{ chapter_number := parseDigits ds
         chapter_title := "Title"
         page_number := none
         start_position := 0
         full_match := String.mk ("Chapter ".data ++ ds ++ ": Title".data) }])
  ∧ (∀ wv ∈ chapterWordValues,
      find_chapters ("Chapter " ++ wv.1 ++ ": Title") none =
        [{ chapter_number := wv.2
           chapter_title := "Title"
           page_number := none
           start_position := 0
           full_match := "Chapter " ++ wv.1 ++ ": Title" }]) :=
  ⟨c8_amended_test ds h1 h2, by decide⟩

/-- Witness for C8 (amended) at the concrete digit string `"42"`. -/
theorem c8_numeral_extraction_amended_witness :
    (find_chapters (String.mk ("Chapter ".data ++ ['4', '2'] ++ ": Title".data)) none =
      [{ chapter_number := parseDigits ['4', '2']
         chapter_title := "Title"
         page_number := none
         start_position := 0
         full_match := String.mk ("Chapter ".data ++ ['4', '2'] ++ ": Title".data) }])
  ∧ (∀ wv ∈ chapterWordValues,
      find_chapters ("Chapter " ++ wv.1 ++ ": Title") none =
        [{ chapter_number := wv.2
           chapter_title := "Title"
           page_number := none
           start_position := 0
           full_match := "Chapter " ++ wv.1 ++ ": Title" }]) :=
  c8_numeral_extraction_amended ['4', '2'] (by decide) (by decide)

theorem sorted_getD_le (a : List Nat) (hs : List.Pairwise (fun x y => x ≤ y) a)
    (i j : Nat) (hij : i ≤ j) (hj : j < a.length) : a.getD i 0 ≤ a.getD j 0 := by
  rcases Nat.lt_or_ge i j with h | h
  · rw [List.getD_eq_getElem a 0 (by omega), List.getD_eq_getElem a 0 hj]
    exact List.pairwise_iff_getElem.mp hs i j (by omega) hj h
  · have : i = j := by omega
    subst this
    exact le_refl _

theorem bisectRightGo_spec (a : List Nat) (x : Nat)
    (hs : List.Pairwise (fun p q => p ≤ q) a) :
    ∀ n lo hi, hi - lo = n → lo ≤ hi → hi ≤ a.length →
    (∀ i, i < lo → a.getD i 0 ≤ x) →
    (∀ i, hi ≤ i → i < a.length → x < a.getD i 0) →
    lo ≤ bisectRightGo a x lo hi ∧ bisectRightGo a x lo hi ≤ hi ∧
    (∀ i, i < bisectRightGo a x lo hi → a.getD i 0 ≤ x) ∧
    (∀ i, bisectRightGo a x lo hi ≤ i → i < a.length → x < a.getD i 0) := by
  intro n
  induction n using Nat.strong_induction_on with
  | _ n ih =>
    intro lo hi hn hlh hhl hlow hhigh
    by_cases h : lo < hi
    · by_cases hlt : x < a.getD ((lo + hi) / 2) 0
      · have heq : bisectRightGo a x lo hi = bisectRightGo a x lo ((lo + hi) / 2) := by
          have hlt2 : x < a[(lo + hi) / 2]?.getD 0 := by
            rw [← List.getD_eq_getElem?_getD]
            exact hlt
          rw [bisectRightGo]
          simp [h, hlt2]
        rw [heq]
        have hhigh2 : ∀ i, (lo + hi) / 2 ≤ i → i < a.length → x < a.getD i 0 := by
          intro i h1 h2
          exact Nat.lt_of_lt_of_le hlt (sorted_getD_le a hs _ i h1 h2)
        have hrec := ih ((lo + hi) / 2 - lo) (by omega) lo ((lo + hi) / 2) rfl (by omega)
          (by omega) hlow hhigh2
        exact ⟨hrec.1, by omega, hrec.2.2.1, hrec.2.2.2⟩
      · have heq : bisectRightGo a x lo hi = bisectRightGo a x ((lo + hi) / 2 + 1) hi := by
          have hlt2 : ¬ x < a[(lo + hi) / 2]?.getD 0 := by
            rw [← List.getD_eq_getElem?_getD]
            exact hlt
          rw [bisectRightGo]
          simp [h, hlt2]
        rw [heq]
        have hmidlen : (lo + hi) / 2 < a.length := by omega
        have hlow2 : ∀ i, i < (lo + hi) / 2 + 1 → a.getD i 0 ≤ x := by
          intro i h1
          rcases Nat.lt_or_ge i lo with h2 | h2
          · exact hlow i h2
          · exact le_trans (sorted_getD_le a hs i _ (by omega) hmidlen) (by omega)
        have hrec := ih (hi - ((lo + hi) / 2 + 1)) (by omega) ((lo + hi) / 2 + 1) hi rfl
          (by omega) hhl hlow2 hhigh
        exact ⟨by omega, hrec.2.1, hrec.2.2.1, hrec.2.2.2⟩
    · have heq : bisectRightGo a x lo hi = lo := by
        rw [bisectRightGo]
        simp [h]
      rw [heq]
      exact ⟨le_refl _, by omega, hlow, fun i h1 h2 => hhigh i (by omega) h2⟩

theorem finalize_sorted (reg : ChapterRegistry) :
    List.Pairwise (fun u v : CDBoundary => u.page_number ≤ v.page_number)
      reg.finalize.boundaries := by
  have h := @List.sorted_mergeSort CDBoundary
    (fun u v : CDBoundary => decide (u.page_number ≤ v.page_number))
    (fun a b c h1 h2 => by
      simp only [decide_eq_true_eq] at *
      omega)
    (fun a b => by
      simp only [Bool.or_eq_true, decide_eq_true_eq]
      omega)
    reg.boundaries
  exact h.imp (fun hab => by simpa using hab)

theorem finalize_perm (reg : ChapterRegistry) :
    reg.finalize.boundaries.Perm reg.boundaries :=
  List.mergeSort_perm reg.boundaries _

/-- C2: for every finalized chapter registry and page number `P`,
`get_chapter_info` returns the boundary with the greatest `start_page <= P`
(second conjunct: the returned boundary is in the registry, starts at or
before `P`, and no boundary at or before `P` starts later), it returns the
no-chapter sentinel `none` exactly when the registry is empty or `P` precedes
every boundary (first conjunct), and `get_chapter_id` renders the same
boundary as `chNN`, with `'ch00'` as the sentinel (third conjunct). -/
theorem c2_point_lookup (reg : ChapterRegistry) (P : Nat) :
    (reg.finalize.get_chapter_info P = none ↔ ∀ b ∈ reg.boundaries, P < b.page_number)
  ∧ (∀ b, reg.finalize.get_chapter_info P = some b →
      b ∈ reg.boundaries ∧ b.page_number ≤ P ∧
      ∀ b2 ∈ reg.boundaries, b2.page_number ≤ P → b2.page_number ≤ b.page_number)
  ∧ reg.finalize.get_chapter_id P =
      (match reg.finalize.get_chapter_info P with
       | none => "ch00"
       | some b => chapterIdString b.chapter_number) := by
  have hperm := finalize_perm reg
  have hsort := finalize_sorted reg
  set l := reg.finalize.boundaries with hldef
  have hmem : ∀ b : CDBoundary, b ∈ l ↔ b ∈ reg.boundaries := fun b => hperm.mem_iff
  have hsortmap : List.Pairwise (fun p q : Nat => p ≤ q) (l.map (fun b => b.page_number)) :=
    List.pairwise_map.mpr hsort
  have hgd : ∀ i, i < l.length →
      (l.map (fun b => b.page_number)).getD i 0 = (l.getD i ⟨0, 0, none⟩).page_number := by
    intro i hi
    rw [List.getD_eq_getElem _ 0 (by simpa using hi), List.getD_eq_getElem _ _ hi,
      List.getElem_map]
  have hspec := bisectRightGo_spec (l.map (fun b => b.page_number)) P hsortmap
    (l.map (fun b => b.page_number)).length 0 (l.map (fun b => b.page_number)).length
    (by omega) (by omega) (le_refl _)
    (fun i h1 => absurd h1 (Nat.not_lt_zero i))
    (fun i h1 h2 => absurd h2 (by omega))
  set r := bisectRightGo (l.map (fun b => b.page_number)) P 0
    (l.map (fun b => b.page_number)).length with hrdef
  have hrb : bisect_right (l.map (fun b => b.page_number)) P = r := rfl
  obtain ⟨-, hrle, hlow, hhigh⟩ := hspec
  have hlen : (l.map (fun b => b.page_number)).length = l.length := by simp
  cases hl : l with
  | nil =>
    have hregnil : reg.boundaries = [] := by
      have := hperm
      rw [hl] at this
      exact this.symm.eq_nil
    refine ⟨?_, ?_, ?_⟩
    · constructor
      · intro _ b hb
        rw [hregnil] at hb
        cases hb
      · intro _
        show ChapterRegistry.get_chapter_info _ _ = none
        unfold ChapterRegistry.get_chapter_info
        rw [← hldef, hl]
        rfl
    · intro b hb
      unfold ChapterRegistry.get_chapter_info at hb
      rw [← hldef, hl] at hb
      simp at hb
    · show ChapterRegistry.get_chapter_id _ _ = _
      unfold ChapterRegistry.get_chapter_id ChapterRegistry.get_chapter_info
      rw [← hldef, hl]
      rfl
  | cons c cs =>
    have hlne : l.isEmpty = false := by rw [hl]; rfl
    have hinfo : reg.finalize.get_chapter_info P =
        (if r = 0 then none else some (l.getD (r - 1) ⟨0, 0, none⟩)) := by
      show ChapterRegistry.get_chapter_info _ _ = _
      unfold ChapterRegistry.get_chapter_info
      rw [← hldef, hrb]
      simp [hlne]
    have hid : reg.finalize.get_chapter_id P =
        (if r = 0 then "ch00"
         else chapterIdString (l.getD (r - 1) ⟨0, 0, none⟩).chapter_number) := by
      show ChapterRegistry.get_chapter_id _ _ = _
      unfold ChapterRegistry.get_chapter_id
      rw [← hldef, hrb]
      simp [hlne]
    have hpage : ∀ i, i < l.length → (l.getD i ⟨0, 0, none⟩).page_number ≤ P → False →
        True := fun _ _ _ _ => trivial
    by_cases hr0 : r = 0
    · have hall : ∀ b ∈ reg.boundaries, P < b.page_number := by
        intro b hb
        rcases List.mem_iff_getElem.mp ((hmem b).mpr hb) with ⟨i, hi, hbi⟩
        have := hhigh i (by omega) (by omega)
        rw [hgd i hi] at this
        rw [List.getD_eq_getElem _ _ hi, hbi] at this
        exact this
      refine ⟨?_, ?_, ?_⟩
      · rw [hinfo, if_pos hr0]
        exact ⟨fun _ => hall, fun _ => rfl⟩
      · intro b hb
        rw [hinfo, if_pos hr0] at hb
        cases hb
      · rw [hid, hinfo]
        simp [hr0]
    · have hrlen : r - 1 < l.length := by omega
      have hbmem : l.getD (r - 1) ⟨0, 0, none⟩ ∈ l := by
        rw [List.getD_eq_getElem _ _ hrlen]
        exact List.getElem_mem hrlen
      have hble : (l.getD (r - 1) ⟨0, 0, none⟩).page_number ≤ P := by
        have := hlow (r - 1) (by omega)
        rw [hgd (r - 1) hrlen] at this
        exact this
      refine ⟨?_, ?_, ?_⟩
      · rw [hinfo, if_neg hr0]
        constructor
        · intro hx
          cases hx
        · intro hall
          exact absurd (hall _ ((hmem _).mp hbmem)) (by omega)
      · intro b hb
        rw [hinfo, if_neg hr0] at hb
        have hbeq : l.getD (r - 1) ⟨0, 0, none⟩ = b := by
          injection hb
        refine ⟨(hmem b).mp (hbeq ▸ hbmem), hbeq ▸ hble, ?_⟩
        intro b2 hb2 hb2le
        rcases List.mem_iff_getElem.mp ((hmem b2).mpr hb2) with ⟨i, hi, hbi⟩
        by_cases hir : i < r
        · have := sorted_getD_le (l.map (fun b => b.page_number)) hsortmap i (r - 1)
            (by omega) (by omega)
          rw [hgd i hi, hgd (r - 1) hrlen] at this
          rw [List.getD_eq_getElem _ _ hi, hbi] at this
          rw [← hbeq]
          rw [List.getD_eq_getElem _ _ hrlen]
          rw [List.getD_eq_getElem _ _ hrlen] at this
          exact this
        · have := hhigh i (by omega) (by omega)
          rw [hgd i hi] at this
          rw [List.getD_eq_getElem _ _ hi, hbi] at this
          omega
      · rw [hid, hinfo]
        simp [hr0]

/-- Witness for C2: a concrete two-chapter registry looked up at page 12. -/
theorem c2_point_lookup_witness :
    (⟨2, 10, none⟩ : CDBoundary) ∈ [(⟨1, 5, none⟩ : CDBoundary), ⟨2, 10, none⟩]
  ∧ (⟨2, 10, none⟩ : CDBoundary).page_number ≤ 12
  ∧ ∀ b2 ∈ [(⟨1, 5, none⟩ : CDBoundary), ⟨2, 10, none⟩],
      b2.page_number ≤ 12 → b2.page_number ≤ (⟨2, 10, none⟩ : CDBoundary).page_number := by
  have hinfo : ChapterRegistry.get_chapter_info
      (ChapterRegistry.finalize ⟨[⟨1, 5, none⟩, ⟨2, 10, none⟩]⟩) 12 =
      some ⟨2, 10, none⟩ := by
    simp only [ChapterRegistry.finalize, ChapterRegistry.get_chapter_info, bisect_right]
    norm_num [List.mergeSort]
    have hb1 : bisectRightGo [5, 10] 12 0 2 = 2 := by
      rw [bisectRightGo.eq_def]
      norm_num
      rw [bisectRightGo.eq_def]
      norm_num
    rw [hb1]
    norm_num
  exact (c2_point_lookup ⟨[⟨1, 5, none⟩, ⟨2, 10, none⟩]⟩ 12).2.1 ⟨2, 10, none⟩ hinfo

theorem computeEnds_map_start : ∀ (l : List SectionBoundary) (lp : Nat),
    (computeEnds l lp).map (fun s => s.page_start) = l.map (fun s => s.page_start)
  | [], _ => rfl
  | [s], lp => rfl
  | s :: s2 :: rest, lp => by
    rw [computeEnds]
    simp only [List.map_cons]
    rw [computeEnds_map_start (s2 :: rest) lp]
    simp

theorem computeEnds_map_number : ∀ (l : List SectionBoundary) (lp : Nat),
    (computeEnds l lp).map (fun s => s.section_number) = l.map (fun s => s.section_number)
  | [], _ => rfl
  | [s], lp => rfl
  | s :: s2 :: rest, lp => by
    rw [computeEnds]
    simp only [List.map_cons]
    rw [computeEnds_map_number (s2 :: rest) lp]
    simp

theorem computeEnds_adjacent : ∀ (l : List SectionBoundary) (lp : Nat) (i : Nat)
    (s s2 : SectionBoundary),
    (computeEnds l lp).get? i = some s → (computeEnds l lp).get? (i + 1) = some s2 →
    s.page_end = some (s2.page_start - 1)
  | [], _, i, s, s2 => by intro h; cases h
  | [t], lp, i, s, s2 => by
    intro h1 h2
    cases i with
    | zero => cases h2
    | succ j => cases h1
  | t :: t2 :: rest, lp, i, s, s2 => by
    intro h1 h2
    cases i with
    | zero =>
      rw [computeEnds] at h1 h2
      simp only [List.get?_cons_zero, Option.some.injEq] at h1
      simp only [List.get?_cons_succ] at h2
      have hstart : s2.page_start = t2.page_start := by
        have hm := computeEnds_map_start (t2 :: rest) lp
        cases hc : computeEnds (t2 :: rest) lp with
        | nil => rw [hc] at h2; cases h2
        | cons u us =>
          rw [hc] at h2
          simp only [List.get?_cons_zero, Option.some.injEq] at h2
          rw [hc] at hm
          simp only [List.map_cons, List.cons.injEq] at hm
          rw [← h2, hm.1]
      rw [← h1, hstart]
    | succ j =>
      rw [computeEnds] at h1 h2
      simp only [List.get?_cons_succ] at h1 h2
      exact computeEnds_adjacent (t2 :: rest) lp j s s2 h1 h2

theorem computeEnds_getLast? : ∀ (l : List SectionBoundary) (lp : Nat) (s : SectionBoundary),
    (computeEnds l lp).getLast? = some s → s.page_end = some lp
  | [], _, s => by intro h; cases h
  | [t], lp, s => by
    intro h
    simp only [computeEnds, List.getLast?_singleton, Option.some.injEq] at h
    rw [← h]
  | t :: t2 :: rest, lp, s => by
    intro h
    rw [computeEnds] at h
    cases hc : computeEnds (t2 :: rest) lp with
    | nil =>
      have hm := computeEnds_map_start (t2 :: rest) lp
      rw [hc] at hm
      cases hm
    | cons u us =>
      rw [hc] at h
      have h2 : (computeEnds (t2 :: rest) lp).getLast? = some s := by
        rw [hc]
        exact h
      exact computeEnds_getLast? (t2 :: rest) lp s h2

theorem sectionScanStep_lastp (detect : String → Option (String × Option String × Nat))
    (st : List SectionBoundary × List String × Nat) (p : PageIn) :
    (sectionScanStep detect st p).2.2 =
      if p.pdf_page_number = 0 ∨ p.text = "" then st.2.2
      else max st.2.2 p.pdf_page_number := by
  unfold sectionScanStep
  by_cases h : p.pdf_page_number = 0 ∨ p.text = ""
  · simp [h]
  · simp only [h, if_false, if_neg]
    cases detect p.text with
    | none => rfl
    | some r =>
      obtain ⟨num, title, depth⟩ := r
      by_cases hs : num ∈ st.2.1 <;> simp [hs]

theorem sectionScan_lastp (detect : String → Option (String × Option String × Nat)) :
    ∀ (pages : List PageIn) (st : List SectionBoundary × List String × Nat),
    (pages.foldl (sectionScanStep detect) st).2.2 =
      pages.foldl (fun m p =>
        if p.pdf_page_number = 0 ∨ p.text = "" then m else max m p.pdf_page_number) st.2.2 := by
  intro pages
  induction pages with
  | nil => intro st; rfl
  | cons p rest ih =>
    intro st
    rw [List.foldl_cons, List.foldl_cons, ih]
    congr 1
    exact sectionScanStep_lastp detect st p

theorem sectionScan_invariant (detect : String → Option (String × Option String × Nat)) :
    ∀ (pages : List PageIn) (st : List SectionBoundary × List String × Nat),
    List.Pairwise (fun p q : PageIn => p.pdf_page_number < q.pdf_page_number) pages →
    (∀ s ∈ st.1, ∀ p ∈ pages, ¬ (p.pdf_page_number = 0 ∨ p.text = "") →
      s.page_start < p.pdf_page_number) →
    List.Pairwise (fun u v : SectionBoundary => u.page_start < v.page_start) st.1 →
    (∀ s ∈ st.1, s.page_start ≤ st.2.2) →
    st.2.1 = st.1.map (fun s => s.section_number) →
    st.2.1.Nodup →
    List.Pairwise (fun u v : SectionBoundary => u.page_start < v.page_start)
        (pages.foldl (sectionScanStep detect) st).1 ∧
      (∀ s ∈ (pages.foldl (sectionScanStep detect) st).1,
        s.page_start ≤ (pages.foldl (sectionScanStep detect) st).2.2) ∧
      (pages.foldl (sectionScanStep detect) st).2.1 =
        (pages.foldl (sectionScanStep detect) st).1.map (fun s => s.section_number) ∧
      (pages.foldl (sectionScanStep detect) st).2.1.Nodup := by
  intro pages
  induction pages with
  | nil =>
    intro st _ _ h2 h3 h4 h5
    exact ⟨h2, h3, h4, h5⟩
  | cons p rest ih =>
    intro st hpw hfresh hpair hle hseen hnd
    rw [List.foldl_cons]
    have hpwrest := hpw.of_cons
    have hplt : ∀ q ∈ rest, p.pdf_page_number < q.pdf_page_number :=
      fun q hq => List.rel_of_pairwise_cons hpw hq
    by_cases hskip : p.pdf_page_number = 0 ∨ p.text = ""
    · have hstep : sectionScanStep detect st p = st := by
        unfold sectionScanStep
        simp [hskip]
      rw [hstep]
      exact ih st hpwrest
        (fun s hs q hq hv => hfresh s hs q (by simp [hq]) hv)
        hpair hle hseen hnd
    · have hlastp : (sectionScanStep detect st p).2.2 = max st.2.2 p.pdf_page_number := by
        rw [sectionScanStep_lastp]
        simp [hskip]
      cases hdet : detect p.text with
      | none =>
        have hstep : sectionScanStep detect st p = (st.1, st.2.1, max st.2.2 p.pdf_page_number) := by
          unfold sectionScanStep
          simp [hskip, hdet]
        rw [hstep]
        exact ih _ hpwrest
          (fun s hs q hq hv => hfresh s hs q (by simp [hq]) hv)
          hpair (fun s hs => le_trans (hle s hs) (le_max_left _ _)) hseen hnd
      | some r =>
        obtain ⟨num, title, depth⟩ := r
        by_cases hmem : num ∈ st.2.1
        · have hstep : sectionScanStep detect st p = (st.1, st.2.1, max st.2.2 p.pdf_page_number) := by
            unfold sectionScanStep
            simp [hskip, hdet, hmem]
          rw [hstep]
          exact ih _ hpwrest
            (fun s hs q hq hv => hfresh s hs q (by simp [hq]) hv)
            hpair (fun s hs => le_trans (hle s hs) (le_max_left _ _)) hseen hnd
        · have hstep : sectionScanStep detect st p =
              (st.1 ++ [{ section_number := num
                          page_start := p.pdf_page_number
                          section_title := title
                          chapter_number := chapterOfSectionNum num
                          depth := depth }],
               st.2.1 ++ [num], max st.2.2 p.pdf_page_number) := by
            unfold sectionScanStep
            simp [hskip, hdet, hmem]
          rw [hstep]
          apply ih _ hpwrest
          · intro s hs q hq hv
            rcases List.mem_append.mp hs with hs1 | hs1
            · exact hfresh s hs1 q (by simp [hq]) hv
            · simp only [List.mem_singleton] at hs1
              subst hs1
              exact hplt q hq
          · rw [List.pairwise_append]
            refine ⟨hpair, List.pairwise_singleton _ _, ?_⟩
            intro s hs t ht
            simp only [List.mem_singleton] at ht
            subst ht
            exact hfresh s hs p (by simp) hskip
          · intro s hs
            rcases List.mem_append.mp hs with hs1 | hs1
            · exact le_trans (hfresh s hs1 p (by simp) hskip).le (le_max_right _ _)
            · simp only [List.mem_singleton] at hs1
              subst hs1
              exact le_max_right _ _
          · rw [hseen, List.map_append]
            rfl
          · rw [List.nodup_append]
            refine ⟨hnd, List.nodup_singleton _, ?_⟩
            intro x hx
            simp only [List.mem_singleton]
            intro hxe
            subst hxe
            exact hmem hx

theorem modifyLast_map (f : α → α) (g : α → β) (h : ∀ a, g (f a) = g a) :
    ∀ l : List α, (modifyLast f l).map g = l.map g
  | [] => rfl
  | [a] => by simp [modifyLast, h a]
  | a :: b :: rest => by
    rw [modifyLast]
    simp only [List.map_cons]
    rw [modifyLast_map f g h (b :: rest)]
    rfl

theorem chapterScan_invariant (cfg : ChapterScanCfg)
    (cdetect : String → Option (Nat × Option String))
    (cspecial : String → Option (String × String)) :
    ∀ (pages : List PageIn) (st : List ChapterScanBoundary × List Nat × Nat),
    List.Pairwise (fun p q : PageIn => p.pdf_page_number < q.pdf_page_number) pages →
    (∀ x ∈ st.1.map (fun b => b.page_number), ∀ p ∈ pages,
      ¬ (p.pdf_page_number = 0 ∨ p.text = "") → x < p.pdf_page_number) →
    List.Pairwise (fun x y : Nat => x < y) (st.1.map (fun b => b.page_number)) →
    st.2.1 = st.1.map (fun b => b.chapter_number) →
    st.2.1.Nodup →
    List.Pairwise (fun x y : Nat => x < y)
        ((pages.foldl (chapterScanStep cfg cdetect cspecial) st).1.map
          (fun b => b.page_number)) ∧
      (pages.foldl (chapterScanStep cfg cdetect cspecial) st).2.1 =
        (pages.foldl (chapterScanStep cfg cdetect cspecial) st).1.map
          (fun b => b.chapter_number) ∧
      (pages.foldl (chapterScanStep cfg cdetect cspecial) st).2.1.Nodup := by
  intro pages
  induction pages with
  | nil =>
    intro st _ _ h2 h3 h4
    exact ⟨h2, h3, h4⟩
  | cons p rest ih =>
    intro st hpw hfresh hpair hseen hnd
    rw [List.foldl_cons]
    have hpwrest := hpw.of_cons
    have hplt : ∀ q ∈ rest, p.pdf_page_number < q.pdf_page_number :=
      fun q hq => List.rel_of_pairwise_cons hpw hq
    by_cases hskip : p.pdf_page_number = 0 ∨ p.text = ""
    · have hstep : chapterScanStep cfg cdetect cspecial st p = st := by
        unfold chapterScanStep
        simp [hskip]
      rw [hstep]
      exact ih st hpwrest (fun x hx q hq hv => hfresh x hx q (by simp [hq]) hv)
        hpair hseen hnd
    · cases hdet : cdetect p.text with
      | some r =>
        obtain ⟨cn, title⟩ := r
        by_cases hrange : cfg.min_chapter ≤ cn ∧ cn ≤ cfg.max_chapter
        · by_cases hmem : cn ∈ st.2.1
          · have hstep : chapterScanStep cfg cdetect cspecial st p = st := by
              unfold chapterScanStep
              simp [hskip, hdet, hrange, hmem]
            rw [hstep]
            exact ih st hpwrest (fun x hx q hq hv => hfresh x hx q (by simp [hq]) hv)
              hpair hseen hnd
          · by_cases hgap : st.2.2 > 0 ∧
                (p.pdf_page_number : Int) - (st.2.2 : Int) < (cfg.min_page_gap : Int)
            · have hstep : chapterScanStep cfg cdetect cspecial st p = st := by
                unfold chapterScanStep
                simp [hskip, hdet, hrange, hmem, hgap]
              rw [hstep]
              exact ih st hpwrest (fun x hx q hq hv => hfresh x hx q (by simp [hq]) hv)
                hpair hseen hnd
            · have hstep : chapterScanStep cfg cdetect cspecial st p =
                  (st.1 ++ [{ chapter_number := cn
                              page_number := p.pdf_page_number
                              chapter_title := title }],
                   st.2.1 ++ [cn], p.pdf_page_number) := by
                unfold chapterScanStep
                simp [hskip, hdet, hrange, hmem, hgap]
              rw [hstep]
              apply ih _ hpwrest
              · intro x hx q hq hv
                rw [List.map_append] at hx
                rcases List.mem_append.mp hx with hx1 | hx1
                · exact hfresh x hx1 q (by simp [hq]) hv
                · simp only [List.map_cons, List.map_nil, List.mem_singleton] at hx1
                  subst hx1
                  exact hplt q hq
              · rw [List.map_append]
                rw [List.pairwise_append]
                refine ⟨hpair, by simp, ?_⟩
                intro x hx y hy
                simp only [List.map_cons, List.map_nil, List.mem_singleton] at hy
                subst hy
                exact hfresh x hx p (by simp) hskip
              · rw [hseen, List.map_append]
                rfl
              · rw [List.nodup_append]
                refine ⟨hnd, List.nodup_singleton _, ?_⟩
                intro x hx
                simp only [List.mem_singleton]
                intro hxe
                subst hxe
                exact hmem hx
        · have hstep : chapterScanStep cfg cdetect cspecial st p = st := by
            unfold chapterScanStep
            simp [hskip, hdet, hrange]
          rw [hstep]
          exact ih st hpwrest (fun x hx q hq hv => hfresh x hx q (by simp [hq]) hv)
            hpair hseen hnd
      | none =>
        by_cases hsp : cfg.detect_special_pages ∧ ¬ st.1.isEmpty
        · cases hspd : cspecial p.text with
          | some sr =>
            have hstep : chapterScanStep cfg cdetect cspecial st p =
                (modifyLast (fun b : ChapterScanBoundary =>
                  { b with special_pages := b.special_pages ++
                      [{ page_type := sr.1
                         page_number := p.pdf_page_number
                         chapter_number := some b.chapter_number
                         title := some sr.2 }] }) st.1, st.2.1, st.2.2) := by
              unfold chapterScanStep
              simp [hskip, hdet, hsp, hspd]
            rw [hstep]
            have hmpage := modifyLast_map (fun b : ChapterScanBoundary =>
              { b with special_pages := b.special_pages ++
                  [{ page_type := sr.1
                     page_number := p.pdf_page_number
                     chapter_number := some b.chapter_number
                     title := some sr.2 }] }) (fun b => b.page_number) (fun a => rfl) st.1
            have hmchap := modifyLast_map (fun b : ChapterScanBoundary =>
              { b with special_pages := b.special_pages ++
                  [{ page_type := sr.1
                     page_number := p.pdf_page_number
                     chapter_number := some b.chapter_number
                     title := some sr.2 }] }) (fun b => b.chapter_number) (fun a => rfl) st.1
            apply ih _ hpwrest
            · intro x hx q hq hv
              rw [hmpage] at hx
              exact hfresh x hx q (by simp [hq]) hv
            · rw [hmpage]
              exact hpair
            · rw [hmchap]
              exact hseen
            · exact hnd
          | none =>
            have hstep : chapterScanStep cfg cdetect cspecial st p = st := by
              unfold chapterScanStep
              simp [hskip, hdet, hsp, hspd]
            rw [hstep]
            exact ih st hpwrest (fun x hx q hq hv => hfresh x hx q (by simp [hq]) hv)
              hpair hseen hnd
        · have hstep : chapterScanStep cfg cdetect cspecial st p = st := by
            unfold chapterScanStep
            rw [if_neg hskip, hdet]
            exact if_neg hsp
          rw [hstep]
          exact ih st hpwrest (fun x hx q hq hv => hfresh x hx q (by simp [hq]) hv)
            hpair hseen hnd

theorem computeEnds_end_ge : ∀ (l : List SectionBoundary) (lp : Nat),
    List.Pairwise (fun u v : SectionBoundary => u.page_start < v.page_start) l →
    (∀ s ∈ l, s.page_start ≤ lp) →
    ∀ s ∈ computeEnds l lp, ∀ e, s.page_end = some e → s.page_start ≤ e
  | [], _, _, _ => by intro s hs; cases hs
  | [t], lp, hpw, hle => by
    intro s hs e he
    simp only [computeEnds, List.mem_singleton] at hs
    subst hs
    simp only [Option.some.injEq] at he
    subst he
    exact hle t (by simp)
  | t :: t2 :: rest, lp, hpw, hle => by
    intro s hs e he
    rw [computeEnds] at hs
    rcases List.mem_cons.mp hs with hs1 | hs1
    · subst hs1
      simp only [Option.some.injEq] at he
      subst he
      have hlt : t.page_start < t2.page_start :=
        List.rel_of_pairwise_cons hpw (by simp)
      show t.page_start ≤ t2.page_start - 1
      omega
    · exact computeEnds_end_ge (t2 :: rest) lp hpw.of_cons
        (fun u hu => hle u (by simp [hu])) s hs1 e he

/-- C7 counterexample: the finalized chapter boundary emitted by
`scan_pagerecords_for_chapters` has no `end_page` at all — its serialised
form carries exactly the keys `chapter_number`, `page_number`,
`chapter_title`, `special_pages` and looking up `end_page` yields nothing,
so chapter boundaries are not finalized with an end page. -/
theorem c7_counterexample_check :
    (scan_pagerecords_for_chapters {} (fun t => if t = "Chapter 1" then some (1, none) else none)
        (fun _ => none) [⟨10, "Chapter 1"⟩]).map
      (fun b => ((ChapterScanBoundary.to_dict b).map Prod.fst,
        (ChapterScanBoundary.to_dict b).lookup "end_page")) =
      [(["chapter_number", "page_number", "chapter_title", "special_pages"], none)] := by
  norm_num [scan_pagerecords_for_chapters, chapterScanStep, ChapterScanCfg.min_chapter,
    ChapterScanCfg.max_chapter, ChapterScanCfg.min_page_gap, List.mergeSort,
    ChapterScanBoundary.to_dict, List.lookup,
    show (("end_page" == "chapter_number") = false) from rfl,
    show (("end_page" == "page_number") = false) from rfl,
    show (("end_page" == "chapter_title") = false) from rfl,
    show (("end_page" == "special_pages") = false) from rfl,
    show ¬(("Chapter 1" : String) = "") from by decide]

/-- C7 (amended): after the scanning pass, every SECTION boundary is
finalized with `page_end` equal to the next boundary's `page_start` minus 1,
and the final section's `page_end` equals the last page number seen in the
input; chapter boundaries carry no end page (see the counterexample).  The
statement quantifies over the page-start detector, so it holds for any
detection behaviour. -/
theorem c7_section_end_pages (detect : String → Option (String × Option String × Nat))
    (pages : List PageIn) :
    (∀ (i : Nat) (s s2 : SectionBoundary),
        (scan_pagerecords_for_sections detect pages).get? i = some s →
        (scan_pagerecords_for_sections detect pages).get? (i + 1) = some s2 →
        s.page_end = some (s2.page_start - 1))
  ∧ (∀ s, (scan_pagerecords_for_sections detect pages).getLast? = some s →
        s.page_end = some (lastPageNum pages)) := by
  constructor
  · intro i s s2 h1 h2
    exact computeEnds_adjacent _ _ i s s2 h1 h2
  · intro s h
    have he := computeEnds_getLast? _ _ s h
    rw [he]
    have : (pages.foldl (sectionScanStep detect) ([], [], 0)).2.2 = lastPageNum pages := by
      rw [sectionScan_lastp]
      rfl
    rw [this]

/-- C6: for registries built by a scan over pages in strictly ascending page
order, `page_start` values are strictly increasing across the finalized
boundary list and duplicate numerals are discarded (the numeral lists are
duplicate-free, first occurrence wins); every section boundary satisfies
`end_page >= start_page`.  Chapter boundaries (which have no end-page field)
satisfy the same strict monotonicity and dedup properties.  Quantified over
arbitrary detectors and scan configuration. -/
theorem c6_registry_monotonicity
    (sdetect : String → Option (String × Option String × Nat))
    (cfg : ChapterScanCfg) (cdetect : String → Option (Nat × Option String))
    (cspecial : String → Option (String × String)) (pages : List PageIn)
    (hpw : List.Pairwise (fun p q : PageIn => p.pdf_page_number < q.pdf_page_number) pages) :
    (List.Pairwise (fun u v : SectionBoundary => u.page_start < v.page_start)
        (scan_pagerecords_for_sections sdetect pages)
      ∧ (∀ s ∈ scan_pagerecords_for_sections sdetect pages, ∀ e,
          s.page_end = some e → s.page_start ≤ e)
      ∧ ((scan_pagerecords_for_sections sdetect pages).map
          (fun s => s.section_number)).Nodup)
  ∧ (List.Pairwise (fun u v : ChapterScanBoundary => u.page_number < v.page_number)
        (scan_pagerecords_for_chapters cfg cdetect cspecial pages)
      ∧ ((scan_pagerecords_for_chapters cfg cdetect cspecial pages).map
          (fun b => b.chapter_number)).Nodup) := by
  obtain ⟨hpair, hle, hseen, hnd⟩ := sectionScan_invariant sdetect pages ([], [], 0) hpw
    (by intro s hs; simp at hs) (by simp) (by simp) rfl (by simp)
  have hsq : ((pages.foldl (sectionScanStep sdetect) ([], [], 0)).1).mergeSort
      (fun a b => a.page_start ≤ b.page_start) =
      (pages.foldl (sectionScanStep sdetect) ([], [], 0)).1 :=
    List.mergeSort_of_sorted (hpair.imp (fun hab => by simp [le_of_lt hab]))
  have hscan : scan_pagerecords_for_sections sdetect pages =
      computeEnds (pages.foldl (sectionScanStep sdetect) ([], [], 0)).1
        (pages.foldl (sectionScanStep sdetect) ([], [], 0)).2.2 := by
    show computeEnds
        ((pages.foldl (sectionScanStep sdetect) ([], [], 0)).1.mergeSort
          (fun a b => a.page_start ≤ b.page_start))
        (pages.foldl (sectionScanStep sdetect) ([], [], 0)).2.2 = _
    rw [hsq]
  obtain ⟨hcpair, hcseen, hcnd⟩ := chapterScan_invariant cfg cdetect cspecial pages
    ([], [], 0) hpw (by intro x hx; simp at hx) (by simp) rfl (by simp)
  have hcpair' : List.Pairwise (fun u v : ChapterScanBoundary =>
      u.page_number < v.page_number)
      (pages.foldl (chapterScanStep cfg cdetect cspecial) ([], [], 0)).1 :=
    List.pairwise_map.mp hcpair
  have hcq : ((pages.foldl (chapterScanStep cfg cdetect cspecial) ([], [], 0)).1).mergeSort
      (fun a b => a.page_number ≤ b.page_number) =
      (pages.foldl (chapterScanStep cfg cdetect cspecial) ([], [], 0)).1 :=
    List.mergeSort_of_sorted (hcpair'.imp (fun hab => by simp [le_of_lt hab]))
  have hcscan : scan_pagerecords_for_chapters cfg cdetect cspecial pages =
      (pages.foldl (chapterScanStep cfg cdetect cspecial) ([], [], 0)).1 := by
    show (pages.foldl (chapterScanStep cfg cdetect cspecial) ([], [], 0)).1.mergeSort
        (fun a b => a.page_number ≤ b.page_number) = _
    rw [hcq]
  refine ⟨⟨?_, ?_, ?_⟩, ?_, ?_⟩
  · rw [hscan]
    have hm := computeEnds_map_start (pages.foldl (sectionScanStep sdetect) ([], [], 0)).1
      (pages.foldl (sectionScanStep sdetect) ([], [], 0)).2.2
    have : List.Pairwise (fun x y : Nat => x < y)
        ((computeEnds (pages.foldl (sectionScanStep sdetect) ([], [], 0)).1
          (pages.foldl (sectionScanStep sdetect) ([], [], 0)).2.2).map
            (fun s => s.page_start)) := by
      rw [hm]
      exact List.pairwise_map.mpr hpair
    exact List.pairwise_map.mp this
  · rw [hscan]
    exact computeEnds_end_ge _ _ hpair hle
  · rw [hscan, computeEnds_map_number, ← hseen]
    exact hnd
  · rw [hcscan]
    exact hcpair'
  · rw [hcscan, ← hcseen]
    exact hcnd

theorem c7_section_end_pages_witness :
    (⟨"1.1", 3, some 6, some "A", 1, 1⟩ : SectionBoundary).page_end =
      some ((⟨"1.2", 7, some 9, some "B", 1, 1⟩ : SectionBoundary).page_start - 1)
  ∧ (⟨"1.2", 7, some 9, some "B", 1, 1⟩ : SectionBoundary).page_end =
      some (lastPageNum [(⟨3, "s1"⟩ : PageIn), ⟨7, "s2"⟩, ⟨9, "x"⟩]) := by
  have hout : scan_pagerecords_for_sections
      (fun t => if t = "s1" then some ("1.1", some "A", 1)
        else if t = "s2" then some ("1.2", some "B", 1) else none)
      [⟨3, "s1"⟩, ⟨7, "s2"⟩, ⟨9, "x"⟩] =
      [⟨"1.1", 3, some 6, some "A", 1, 1⟩, ⟨"1.2", 7, some 9, some "B", 1, 1⟩] := by
    simp +decide [scan_pagerecords_for_sections, sectionScanStep, List.mergeSort,
      computeEnds, chapterOfSectionNum, parseDigits, digitVal]
  have h := c7_section_end_pages
    (fun t => if t = "s1" then some ("1.1", some "A", 1)
      else if t = "s2" then some ("1.2", some "B", 1) else none)
    [⟨3, "s1"⟩, ⟨7, "s2"⟩, ⟨9, "x"⟩]
  refine ⟨h.1 0 _ _ ?_ ?_, h.2 _ ?_⟩
  · rw [hout]
    rfl
  · rw [hout]
    rfl
  · rw [hout]
    rfl

theorem c6_registry_monotonicity_witness :
    (List.Pairwise (fun u v : SectionBoundary => u.page_start < v.page_start)
        (scan_pagerecords_for_sections
          (fun t => if t = "s1" then some ("1.1", some "A", 1)
            else if t = "s2" then some ("1.2", some "B", 1) else none)
          [⟨3, "s1"⟩, ⟨7, "s2"⟩, ⟨9, "x"⟩])
      ∧ (∀ s ∈ scan_pagerecords_for_sections
          (fun t => if t = "s1" then some ("1.1", some "A", 1)
            else if t = "s2" then some ("1.2", some "B", 1) else none)
          [⟨3, "s1"⟩, ⟨7, "s2"⟩, ⟨9, "x"⟩], ∀ e,
          s.page_end = some e → s.page_start ≤ e)
      ∧ ((scan_pagerecords_for_sections
          (fun t => if t = "s1" then some ("1.1", some "A", 1)
            else if t = "s2" then some ("1.2", some "B", 1) else none)
          [⟨3, "s1"⟩, ⟨7, "s2"⟩, ⟨9, "x"⟩]).map (fun s => s.section_number)).Nodup)
  ∧ (List.Pairwise (fun u v : ChapterScanBoundary => u.page_number < v.page_number)
        (scan_pagerecords_for_chapters {}
          (fun t => if t = "Chapter 1" then some (1, none) else none)
          (fun _ => none) [⟨3, "s1"⟩, ⟨7, "s2"⟩, ⟨9, "x"⟩])
      ∧ ((scan_pagerecords_for_chapters {}
          (fun t => if t = "Chapter 1" then some (1, none) else none)
          (fun _ => none) [⟨3, "s1"⟩, ⟨7, "s2"⟩, ⟨9, "x"⟩]).map
            (fun b => b.chapter_number)).Nodup) :=
  c6_registry_monotonicity _ {} _ _ [⟨3, "s1"⟩, ⟨7, "s2"⟩, ⟨9, "x"⟩]
    (by simp +decide [List.pairwise_cons])

theorem foldl_questionItemStep_none (lookup : List (Option SecInfo)) (p : PageRec) :
    ∀ (l : List (List Char)) (acc : List QBlock),
    (∀ g ∈ l, qStartMatch g = none) →
    l.foldl (questionItemStep lookup p) acc = acc
  | [], acc, _ => rfl
  | g :: rest, acc, h => by
    rw [List.foldl_cons]
    have hg : questionItemStep lookup p acc g = acc := by
      unfold questionItemStep
      rw [h g (by simp)]
    rw [hg]
    exact foldl_questionItemStep_none lookup p rest acc
      (fun u hu => h u (by simp [hu]))

theorem mem_addPageId_self (l : List String) (a : String) : a ∈ addPageId l a := by
  unfold addPageId
  by_cases h : a ∈ l <;> simp [h]

theorem mem_addPageId_of_mem (l : List String) (a b : String) (h : b ∈ l) :
    b ∈ addPageId l a := by
  unfold addPageId
  by_cases ha : a ∈ l <;> simp [ha, h]

/-- C3: continuation carry across a page boundary.  For any two-page practice
stream where page 1's fragments end with an open numbered item `f1` (all
earlier fragments unnumbered) and page 2 splits into a non-numbered
continuation fragment `c` followed by one new numbered item `f2`, extraction
yields exactly two items; the first item's raw text is `f1` with `c`
appended after a newline, its page-id set contains both pages' ids, and the
second item comes from `f2` alone. -/
theorem c3_continuation_carry (p1 p2 : PageRec) (lookup : List (Option SecInfo))
    (l1 : List (List Char)) (f1 c f2 : List Char) (n1 n2 : Nat)
    (hchunks : practiceChunks [p1, p2] lookup = [p1, p2])
    (hP1 : cleanParts qBoundaryAt p1.text = l1 ++ [f1])
    (hl1 : ∀ g ∈ l1, qStartMatch g = none)
    (hf1 : qStartMatch f1 = some n1)
    (hP2 : cleanParts qBoundaryAt p2.text = [c, f2])
    (hc : qBoundaryAt c = false)
    (hf2 : qStartMatch f2 = some n2) :
    extract_questions [p1, p2] lookup =
      [{ qnum := n1
         raw := String.mk f1 ++ "\n" ++ String.mk c
         page_ids := addPageId [p1.id] p2.id
         pdf_pages := [p1.pdf_page_number]
         section_title := sectionTitleAt lookup p1.pdf_page_number
         section_label := sectionLabelAt lookup p1.pdf_page_number },
       { qnum := n2
         raw := String.mk f2
         page_ids := [p2.id]
         pdf_pages := [p2.pdf_page_number]
         section_title := sectionTitleAt lookup p2.pdf_page_number
         section_label := sectionLabelAt lookup p2.pdf_page_number }]
  ∧ p1.id ∈ addPageId [p1.id] p2.id ∧ p2.id ∈ addPageId [p1.id] p2.id := by
  have hitem1 : questionItemStep lookup p1 [] f1 =
      [{ qnum := n1
         raw := String.mk f1
         page_ids := [p1.id]
         pdf_pages := [p1.pdf_page_number]
         section_title := sectionTitleAt lookup p1.pdf_page_number
         section_label := sectionLabelAt lookup p1.pdf_page_number }] := by
    unfold questionItemStep
    rw [hf1]
    rfl
  have hpage1 : extractQuestionsPage lookup [] p1 =
      [{ qnum := n1
         raw := String.mk f1
         page_ids := [p1.id]
         pdf_pages := [p1.pdf_page_number]
         section_title := sectionTitleAt lookup p1.pdf_page_number
         section_label := sectionLabelAt lookup p1.pdf_page_number }] := by
    unfold extractQuestionsPage
    rw [hP1]
    have hstate : (match l1 ++ [f1] with
        | f :: restParts =>
          if !qBoundaryAt f then
            if ([] : List QBlock).isEmpty then (([] : List QBlock), l1 ++ [f1])
            else (carryAppend f p1.id [], restParts)
          else (([] : List QBlock), l1 ++ [f1])
        | [] => (([] : List QBlock), l1 ++ [f1])) = (([] : List QBlock), l1 ++ [f1]) := by
      cases hl : l1 ++ [f1] with
      | nil => rfl
      | cons f rest =>
        by_cases hb : qBoundaryAt f <;> simp [hb]
    show ((match l1 ++ [f1] with
        | f :: restParts =>
          if !qBoundaryAt f then
            if ([] : List QBlock).isEmpty then (([] : List QBlock), l1 ++ [f1])
            else (carryAppend f p1.id [], restParts)
          else (([] : List QBlock), l1 ++ [f1])
        | [] => (([] : List QBlock), l1 ++ [f1])).2).foldl (questionItemStep lookup p1)
        ((match l1 ++ [f1] with
        | f :: restParts =>
          if !qBoundaryAt f then
            if ([] : List QBlock).isEmpty then (([] : List QBlock), l1 ++ [f1])
            else (carryAppend f p1.id [], restParts)
          else (([] : List QBlock), l1 ++ [f1])
        | [] => (([] : List QBlock), l1 ++ [f1])).1) = _
    rw [hstate]
    rw [List.foldl_append]
    rw [foldl_questionItemStep_none lookup p1 l1 [] hl1]
    rw [List.foldl_cons, List.foldl_nil, hitem1]
  have hpage2 : extractQuestionsPage lookup
      [{ qnum := n1
         raw := String.mk f1
         page_ids := [p1.id]
         pdf_pages := [p1.pdf_page_number]
         section_title := sectionTitleAt lookup p1.pdf_page_number
         section_label := sectionLabelAt lookup p1.pdf_page_number }] p2 =
      [{ qnum := n1
         raw := String.mk f1 ++ "\n" ++ String.mk c
         page_ids := addPageId [p1.id] p2.id
         pdf_pages := [p1.pdf_page_number]
         section_title := sectionTitleAt lookup p1.pdf_page_number
         section_label := sectionLabelAt lookup p1.pdf_page_number },
       { qnum := n2
         raw := String.mk f2
         page_ids := [p2.id]
         pdf_pages := [p2.pdf_page_number]
         section_title := sectionTitleAt lookup p2.pdf_page_number
         section_label := sectionLabelAt lookup p2.pdf_page_number }] := by
    unfold extractQuestionsPage
    rw [hP2]
    simp only [hc, Bool.not_false, if_true, List.isEmpty_cons, Bool.false_eq_true, if_false,
      List.foldl_cons, List.foldl_nil]
    have hcar : carryAppend c p2.id
        [{ qnum := n1
           raw := String.mk f1
           page_ids := [p1.id]
           pdf_pages := [p1.pdf_page_number]
           section_title := sectionTitleAt lookup p1.pdf_page_number
           section_label := sectionLabelAt lookup p1.pdf_page_number }] =
        [{ qnum := n1
           raw := String.mk f1 ++ "\n" ++ String.mk c
           page_ids := addPageId [p1.id] p2.id
           pdf_pages := [p1.pdf_page_number]
           section_title := sectionTitleAt lookup p1.pdf_page_number
           section_label := sectionLabelAt lookup p1.pdf_page_number }] := rfl
    rw [hcar]
    unfold questionItemStep
    rw [hf2]
    rfl
  have hmain : extract_questions [p1, p2] lookup =
      extractQuestionsPage lookup (extractQuestionsPage lookup [] p1) p2 := by
    unfold extract_questions
    rw [hchunks]
    rfl
  refine ⟨?_, mem_addPageId_of_mem _ _ _ (by simp), mem_addPageId_self _ _⟩
  rw [hmain, hpage1, hpage2]

theorem c3_continuation_carry_witness :
    extract_questions
      [⟨"pg1", 1, "1. Alpha\nbeta"⟩, ⟨"pg2", 2, "gamma\n2. Delta"⟩]
      [none, some ⟨some "practice", some "Practice Exercises"⟩,
       some ⟨some "practice", some "Practice Exercises"⟩] =
      [{ qnum := 1
         raw := "1. Alpha\nbeta\ngamma"
         page_ids := ["pg1", "pg2"]
         pdf_pages := [1]
         section_title := some "Practice Exercises"
         section_label := some "practice" },
       { qnum := 2
         raw := "2. Delta"
         page_ids := ["pg2"]
         pdf_pages := [2]
         section_title := some "Practice Exercises"
         section_label := some "practice" }]
  ∧ "pg1" ∈ ["pg1", "pg2"] ∧ "pg2" ∈ ["pg1", "pg2"] := by
  have h := c3_continuation_carry
    ⟨"pg1", 1, "1. Alpha\nbeta"⟩ ⟨"pg2", 2, "gamma\n2. Delta"⟩
    [none, some ⟨some "practice", some "Practice Exercises"⟩,
     some ⟨some "practice", some "Practice Exercises"⟩]
    [] "1. Alpha\nbeta".data "gamma".data "2. Delta".data 1 2
    (by decide) (by decide) (by simp) (by decide) (by decide) (by decide) (by decide)
  refine ⟨?_, by decide, by decide⟩
  rw [h.1]
  decide

theorem writePage_length (info : SecInfo) (lk : List (Option SecInfo)) (p : Nat) :
    (writePage info lk p).length = lk.length := by
  unfold writePage
  split
  · rw [List.length_set]
  · rfl

theorem writePage_getD (info : SecInfo) (lk : List (Option SecInfo)) (p P : Nat) :
    (writePage info lk p).getD P none =
      if p = P ∧ P < lk.length ∧ lk.getD P none = none then some info
      else lk.getD P none := by
  unfold writePage
  by_cases hw : p < lk.length ∧ lk.getD p none = none
  · rw [if_pos hw]
    by_cases hp : p = P
    · subst hp
      rw [if_pos ⟨rfl, hw.1, hw.2⟩]
      rw [List.getD_eq_getElem?_getD, List.getElem?_set_eq (by omega)]
      rfl
    · rw [if_neg (fun hcon => hp hcon.1)]
      rw [List.getD_eq_getElem?_getD, List.getElem?_set_ne hp, ← List.getD_eq_getElem?_getD]
  · rw [if_neg hw]
    by_cases hp : p = P
    · subst hp
      rw [if_neg (fun hcon => hw ⟨hcon.2.1, hcon.2.2⟩)]
    · rw [if_neg (fun hcon => hp hcon.1)]

theorem foldWrite_getD (info : SecInfo) :
    ∀ (ps : List Nat) (lk : List (Option SecInfo)) (P : Nat),
    (ps.foldl (writePage info) lk).getD P none =
      if P ∈ ps ∧ P < lk.length ∧ lk.getD P none = none then some info
      else lk.getD P none
  | [], lk, P => by simp
  | p :: rest, lk, P => by
    rw [List.foldl_cons, foldWrite_getD info rest (writePage info lk p) P,
      writePage_length, writePage_getD]
    by_cases h1 : p = P ∧ P < lk.length ∧ lk.getD P none = none
    · rw [if_pos h1]
      rw [if_neg (fun hcon => by
        have := hcon.2.2
        simp at this)]
      rw [if_pos ⟨by simp [h1.1], h1.2.1, h1.2.2⟩]
    · rw [if_neg h1]
      by_cases h2 : P ∈ rest ∧ P < lk.length ∧ lk.getD P none = none
      · rw [if_pos h2, if_pos ⟨by simp [h2.1], h2.2.1, h2.2.2⟩]
      · rw [if_neg h2]
        rw [if_neg (fun hcon => by
          rcases List.mem_cons.mp hcon.1 with hx | hx
          · exact h1 ⟨hx.symm, hcon.2⟩
          · exact h2 ⟨hx, hcon.2⟩)]

theorem coversB_iff (s : SecRec) (P : Nat) :
    (decide (s.page_start ≤ P ∧ P ≤ s.page_end)) = true ↔
      s.page_start ≤ P ∧ P ≤ s.page_end := by
  simp

theorem assignSection_length (lk : List (Option SecInfo)) (s : SecRec) :
    (assignSection lk s).length = lk.length := by
  unfold assignSection
  generalize List.range' s.page_start (s.page_end + 1 - s.page_start) = ps
  induction ps generalizing lk with
  | nil => rfl
  | cons p rest ih =>
    rw [List.foldl_cons, ih, writePage_length]

theorem assignSection_getD (lk : List (Option SecInfo)) (s : SecRec) (P : Nat) :
    (assignSection lk s).getD P none =
      if (s.page_start ≤ P ∧ P ≤ s.page_end) ∧ P < lk.length ∧ lk.getD P none = none
      then some s.info else lk.getD P none := by
  unfold assignSection
  rw [foldWrite_getD]
  have hmem : P ∈ List.range' s.page_start (s.page_end + 1 - s.page_start) ↔
      s.page_start ≤ P ∧ P ≤ s.page_end := by
    rw [List.mem_range'_1]
    omega
  by_cases h : (s.page_start ≤ P ∧ P ≤ s.page_end) ∧ P < lk.length ∧ lk.getD P none = none
  · rw [if_pos ⟨hmem.mpr h.1, h.2⟩, if_pos h]
  · rw [if_neg (fun hcon => h ⟨hmem.mp hcon.1, hcon.2⟩), if_neg h]

theorem foldAssign_length : ∀ (ss : List SecRec) (lk : List (Option SecInfo)),
    (ss.foldl assignSection lk).length = lk.length
  | [], _ => rfl
  | s :: rest, lk => by
    rw [List.foldl_cons, foldAssign_length rest (assignSection lk s), assignSection_length]

theorem foldAssign_pres : ∀ (ss : List SecRec) (lk : List (Option SecInfo)) (P : Nat),
    lk.getD P none ≠ none →
    (ss.foldl assignSection lk).getD P none = lk.getD P none
  | [], _, _, _ => rfl
  | s :: rest, lk, P, h => by
    rw [List.foldl_cons]
    have hstep : (assignSection lk s).getD P none = lk.getD P none := by
      rw [assignSection_getD]
      rw [if_neg (fun hcon => h hcon.2.2)]
    rw [foldAssign_pres rest (assignSection lk s) P (by rw [hstep]; exact h), hstep]

theorem foldAssign_getD : ∀ (ss : List SecRec) (lk : List (Option SecInfo)) (P : Nat),
    P < lk.length → lk.getD P none = none →
    (ss.foldl assignSection lk).getD P none =
      (ss.find? (fun t => decide (t.page_start ≤ P ∧ P ≤ t.page_end))).map
        (fun t => t.info)
  | [], lk, P, _, h0 => by simpa using h0
  | s :: rest, lk, P, hP, h0 => by
    rw [List.foldl_cons, List.find?_cons]
    by_cases hc : s.page_start ≤ P ∧ P ≤ s.page_end
    · have hset : (assignSection lk s).getD P none = some s.info := by
        rw [assignSection_getD, if_pos ⟨hc, hP, h0⟩]
      rw [foldAssign_pres rest (assignSection lk s) P (by rw [hset]; simp)]
      rw [hset]
      simp [hc]
    · have hset : (assignSection lk s).getD P none = lk.getD P none := by
        rw [assignSection_getD, if_neg (fun hcon => hc hcon.1)]
      rw [foldAssign_getD rest (assignSection lk s) P
        (by rw [assignSection_length]; exact hP) (by rw [hset]; exact h0)]
      simp [hc]

theorem foldl_max_init (f : SecRec → Nat) :
    ∀ (l : List SecRec) (init : Nat), init ≤ l.foldl (fun m s => max m (f s)) init
  | [], _ => le_refl _
  | s :: rest, init =>
    le_trans (le_max_left _ _) (foldl_max_init f rest (max init (f s)))

theorem le_maxPageEnd : ∀ (recs : List SecRec) (s : SecRec), s ∈ recs →
    s.page_end ≤ maxPageEnd recs := by
  intro recs
  unfold maxPageEnd
  generalize (0 : Nat) = init
  induction recs generalizing init with
  | nil => intro s hs; cases hs
  | cons t rest ih =>
    intro s hs
    rcases List.mem_cons.mp hs with hs1 | hs1
    · subst hs1
      rw [List.foldl_cons]
      exact le_trans (le_max_right _ _) (foldl_max_init _ rest _)
    · rw [List.foldl_cons]
      exact ih _ s hs1

theorem secSortLe_trans (a b c : SecRec) (h1 : secSortLe a b = true)
    (h2 : secSortLe b c = true) : secSortLe a c = true := by
  unfold secSortLe secSortKey at *
  simp only [decide_eq_true_eq] at *
  omega

theorem secSortLe_total (a b : SecRec) : (secSortLe a b || secSortLe b a) = true := by
  unfold secSortLe secSortKey
  simp only [Bool.or_eq_true, decide_eq_true_eq]
  omega

theorem secSortLe_refl (a : SecRec) : secSortLe a a = true := by
  unfold secSortLe secSortKey
  simp

theorem find?_first_min (P : Nat) :
    ∀ (l : List SecRec),
    List.Pairwise (fun a b => secSortLe a b = true) l →
    ∀ (s : SecRec), l.find? (fun t => decide (t.page_start ≤ P ∧ P ≤ t.page_end)) = some s →
    ∀ t ∈ l, t.page_start ≤ P ∧ P ≤ t.page_end → secSortLe s t = true
  | [], _, s, hfind => by cases hfind
  | h :: rest, hpw, s, hfind => by
    rw [List.find?_cons] at hfind
    cases hd : decide (h.page_start ≤ P ∧ P ≤ h.page_end) with
    | true =>
      rw [hd] at hfind
      have hhs : h = s := by
        simpa using hfind
      subst hhs
      intro t ht _
      rcases List.mem_cons.mp ht with ht1 | ht1
      · subst ht1
        exact secSortLe_refl _
      · exact List.rel_of_pairwise_cons hpw ht1
    | false =>
      rw [hd] at hfind
      have hfind2 : rest.find? (fun t => decide (t.page_start ≤ P ∧ P ≤ t.page_end)) =
          some s := by
        simpa using hfind
      intro t ht htc
      rcases List.mem_cons.mp ht with ht1 | ht1
      · subst ht1
        have : ¬ (t.page_start ≤ P ∧ P ≤ t.page_end) := by
          simpa using hd
        exact absurd htc this
      · exact find?_first_min P rest hpw.of_cons s hfind2 t ht1 htc

theorem replicate_getD_none (n P : Nat) :
    (List.replicate n (none : Option SecInfo)).getD P none = none := by
  rw [List.getD_eq_getElem?_getD, List.getElem?_replicate]
  split <;> rfl

/-- C9: in the page table built by `lookup_section`, every page covered by at
least one section record is assigned the dict of a covering section whose
(span, page_start) key is lexicographically least among all covering sections
(smallest span first, ties broken by the smaller start page); pages covered
by no section map to `None`. -/
theorem c9_lookup_section (recs : List SecRec) (hne : recs ≠ []) (P : Nat) :
    ((∃ s ∈ recs, s.page_start ≤ P ∧ P ≤ s.page_end) →
      ∃ s ∈ recs, (s.page_start ≤ P ∧ P ≤ s.page_end) ∧
        (lookup_section recs).getD P none = some s.info ∧
        ∀ t ∈ recs, t.page_start ≤ P ∧ P ≤ t.page_end → secSortLe s t = true)
  ∧ ((∀ s ∈ recs, ¬ (s.page_start ≤ P ∧ P ≤ s.page_end)) →
      (lookup_section recs).getD P none = none) := by
  have hperm : (recs.mergeSort secSortLe).Perm recs := List.mergeSort_perm recs _
  have hpw : List.Pairwise (fun a b => secSortLe a b = true) (recs.mergeSort secSortLe) :=
    List.sorted_mergeSort secSortLe_trans secSortLe_total recs
  constructor
  · intro hcov
    obtain ⟨s0, hs0, hc0⟩ := hcov
    have hPlen : P < (List.replicate (maxPageEnd recs + 1) (none : Option SecInfo)).length := by
      rw [List.length_replicate]
      have := le_maxPageEnd recs s0 hs0
      omega
    have hfold := foldAssign_getD (recs.mergeSort secSortLe)
      (List.replicate (maxPageEnd recs + 1) none) P hPlen (replicate_getD_none _ _)
    have hsome : ∃ s, (recs.mergeSort secSortLe).find?
        (fun t => decide (t.page_start ≤ P ∧ P ≤ t.page_end)) = some s := by
      apply Option.isSome_iff_exists.mp
      apply List.find?_isSome.mpr
      exact ⟨s0, hperm.mem_iff.mpr hs0, by simpa using hc0⟩
    obtain ⟨s, hs⟩ := hsome
    refine ⟨s, hperm.mem_iff.mp (List.mem_of_find?_eq_some hs), ?_, ?_, ?_⟩
    · simpa using List.find?_some hs
    · show (lookup_section recs).getD P none = some s.info
      unfold lookup_section
      rw [hfold, hs]
      rfl
    · intro t ht htc
      exact find?_first_min P (recs.mergeSort secSortLe) hpw s hs t
        (hperm.mem_iff.mpr ht) htc
  · intro hunc
    by_cases hPlen : P < maxPageEnd recs + 1
    · have hfold := foldAssign_getD (recs.mergeSort secSortLe)
        (List.replicate (maxPageEnd recs + 1) none) P
        (by rw [List.length_replicate]; exact hPlen) (replicate_getD_none _ _)
      have hnone : (recs.mergeSort secSortLe).find?
          (fun t => decide (t.page_start ≤ P ∧ P ≤ t.page_end)) = none := by
        rw [List.find?_eq_none]
        intro t ht
        simpa using hunc t (hperm.mem_iff.mp ht)
      show (lookup_section recs).getD P none = none
      unfold lookup_section
      rw [hfold, hnone]
      rfl
    · show (lookup_section recs).getD P none = none
      rw [List.getD_eq_getElem?_getD]
      have hlen : (lookup_section recs).length = maxPageEnd recs + 1 := by
        unfold lookup_section
        rw [foldAssign_length, List.length_replicate]
      rw [List.getElem?_eq_none (by omega)]
      rfl

/-- Witness for C9: two overlapping sections; page 2 takes the dict of the
span-0 section. -/
theorem c9_lookup_section_witness :
    ∃ s ∈ [(⟨1, 3, some "a", some "A"⟩ : SecRec), ⟨2, 2, some "b", some "B"⟩],
      (s.page_start ≤ 2 ∧ 2 ≤ s.page_end) ∧
      (lookup_section
        [(⟨1, 3, some "a", some "A"⟩ : SecRec), ⟨2, 2, some "b", some "B"⟩]).getD 2 none =
        some s.info ∧
      ∀ t ∈ [(⟨1, 3, some "a", some "A"⟩ : SecRec), ⟨2, 2, some "b", some "B"⟩],
        t.page_start ≤ 2 ∧ 2 ≤ t.page_end → secSortLe s t = true :=
  (c9_lookup_section [⟨1, 3, some "a", some "A"⟩, ⟨2, 2, some "b", some "B"⟩]
      (by decide) 2).1
    ⟨⟨2, 2, some "b", some "B"⟩, by decide, by decide⟩
